import Mathlib

/-
Verification development for the WASAPI audio output driver
(src/audio/drivers/wasapi.c).

The driver talks to the Windows audio engine exclusively through COM
interface calls and one Win32 event.  Those external calls are modelled as
oracles: each kind of call consumes the next entry of a response list, and
an exhausted list yields the conservative "call failed" answer.  Everything
else — the handle state, the control flow, the staging buffer arithmetic —
is translated directly from the C source.  `size_t` arithmetic that can wrap
in C is modelled with explicit reduction modulo `2 ^ 64`.
-/

set_option linter.unusedVariables false

/-- `size_t` modulus: the modelled build has 64-bit `size_t`. -/
def SZ : Nat := 2 ^ 64

/-- C `size_t` subtraction `a - b`, which wraps modulo `2 ^ 64`.  Both
arguments are values held in `size_t` variables, hence below `SZ`. -/
def subsz (a b : Nat) : Nat := (a + SZ - b) % SZ

/-- Outcome of `WaitForSingleObject`. -/
inductive WaitRes
  | obj0
  | timedOut
  | abandoned
  | failed
deriving DecidableEq, Repr

/-- Observable events of the write path: an event wait (with its timeout in
milliseconds, `none` standing for INFINITE) and a flush of a byte block to
the engine (`IAudioRenderClient::GetBuffer` / `memcpy` / `ReleaseBuffer`). -/
inductive WEvent
  | ewait (timeoutMs : Option Nat)
  | eflush (data : List Nat)
deriving DecidableEq, Repr

/-- Engine oracle for the write path: responses, in call order, of
`WaitForSingleObject`, `IAudioClient::GetCurrentPadding` (`none` = failed
HRESULT), and of a whole flush (GetBuffer + ReleaseBuffer; `false` = some
call of the pair failed). -/
structure WEnv where
  waits   : List WaitRes
  pads    : List (Option Nat)
  flushes : List Bool
deriving DecidableEq, Repr

def WEnv.popWait (env : WEnv) : WaitRes × WEnv :=
  (env.waits.headD .failed, ⟨env.waits.tail, env.pads, env.flushes⟩)

def WEnv.popPad (env : WEnv) : Option Nat × WEnv :=
  (env.pads.headD none, ⟨env.waits, env.pads.tail, env.flushes⟩)

def WEnv.popFlush (env : WEnv) : Bool × WEnv :=
  (env.flushes.headD false, ⟨env.waits, env.pads, env.flushes.tail⟩)

/-- The driver handle `wasapi_t`.  `hasBuffer` mirrors `w->buffer != NULL`
(true exactly in exclusive mode); `staging` holds the bytes currently in the
caller-side buffer, so `staging.length` tracks `buffer_usage`; the `usage`
field mirrors the C `buffer_usage` counter itself. -/
structure Hand where
  hasBuffer  : Bool
  staging    : List Nat
  bufferSize : Nat
  usage      : Nat
  frameSize  : Nat
  blocking   : Bool
  running    : Bool
deriving DecidableEq, Repr

/-- `wasapi_write_sh`: blocking handles first wait (INFINITE) on the write
event; then `GetCurrentPadding` is queried, available space computed with
`size_t` subtraction, and `min size avail` bytes are flushed.  Result `none`
models the C return value `-1`. -/
def wasapi_write_sh (env : WEnv) (w : Hand) (data : List Nat) :
    Option Nat × Hand × WEnv × List WEvent :=
  let stepPad : WEnv → List WEvent → Option Nat × Hand × WEnv × List WEvent :=
    fun env1 log =>
      let pp := WEnv.popPad env1
      match pp.1 with
      | none => (none, w, pp.2, log)
      | some padding =>
        let buffer_avail := subsz w.bufferSize (padding * w.frameSize)
        if buffer_avail = 0 then (some 0, w, pp.2, log)
        else
          let result := min data.length buffer_avail
          let pf := WEnv.popFlush pp.2
          if pf.1 then (some result, w, pf.2, log ++ [.eflush (data.take result)])
          else (none, w, pf.2, log ++ [.eflush (data.take result)])
  if w.blocking then
    let pw := WEnv.popWait env
    match pw.1 with
    | .obj0 => stepPad pw.2 [.ewait none]
    | _ => (none, w, pw.2, [.ewait none])
  else stepPad env []

/-- Early-exit outcome of the staging-full branch of `wasapi_write_ex`. -/
inductive ExStep
  | early (r : Option Nat)
  | proceed
deriving DecidableEq, Repr

/-- The `buffer_usage == buffer_size` branch of `wasapi_write_ex`: one event
wait (INFINITE if blocking, zero timeout otherwise); unsignaled means `-1`
(blocking) or `0` (non-blocking); signaled flushes the whole staging buffer
and resets `buffer_usage` to `0`. -/
def exFullBranch (env : WEnv) (w : Hand) : ExStep × Hand × WEnv × List WEvent :=
  let t : Option Nat := if w.blocking then none else some 0
  let pw := WEnv.popWait env
  match pw.1 with
  | .obj0 =>
    let pf := WEnv.popFlush pw.2
    if pf.1 then
      (.proceed, { w with usage := 0, staging := [] }, pf.2,
       [.ewait t, .eflush w.staging])
    else (.early none, w, pf.2, [.ewait t, .eflush w.staging])
  | _ =>
    if w.blocking then (.early none, w, pw.2, [.ewait t])
    else (.early (some 0), w, pw.2, [.ewait t])

/-- `wasapi_write_ex`: run the staging-full branch when needed, then append
`min size (buffer_size - buffer_usage)` bytes into staging. -/
def wasapi_write_ex (env : WEnv) (w : Hand) (data : List Nat) :
    Option Nat × Hand × WEnv × List WEvent :=
  let fb := if w.usage = w.bufferSize then exFullBranch env w
            else (.proceed, w, env, [])
  match fb.1 with
  | .early r => (r, fb.2.1, fb.2.2.1, fb.2.2.2)
  | .proceed =>
    let w1 := fb.2.1
    let buffer_avail := subsz w1.bufferSize w1.usage
    let result := min data.length buffer_avail
    (some result,
     { w1 with usage := w1.usage + result,
               staging := w1.staging ++ data.take result },
     fb.2.2.1, fb.2.2.2)

/-- One iteration of `wasapi_write`: dispatch on `w->buffer`. -/
def wasapi_write_step (env : WEnv) (w : Hand) (data : List Nat) :
    Option Nat × Hand × WEnv × List WEvent :=
  if w.hasBuffer then wasapi_write_ex env w data else wasapi_write_sh env w data

/-- The blocking loop of `wasapi_write`:
`for (writen = 0, ir = -1; writen < size && ir; writen += ir)`.
An iteration returning `-1` (`none`) aborts with `-1`; an iteration
returning `0` leaves the loop returning the bytes written so far; otherwise
the loop continues on the remaining bytes. -/
def wasapi_write_loop (env : WEnv) (w : Hand) (data : List Nat) (writen : Nat) :
    Option Nat × Hand × WEnv × List WEvent :=
  if h : writen < data.length then
    match wasapi_write_step env w (data.drop writen) with
    | (none, w1, env1, log1) => (none, w1, env1, log1)
    | (some 0, w1, env1, log1) => (some writen, w1, env1, log1)
    | (some (k + 1), w1, env1, log1) =>
      let r := wasapi_write_loop env1 w1 data (writen + (k + 1))
      (r.1, r.2.1, r.2.2.1, log1 ++ r.2.2.2)
  else (some writen, w, env, [])
termination_by data.length - writen
decreasing_by omega

/-- `wasapi_write`: blocking handles loop until done or a hard error;
non-blocking handles do a single iteration. -/
def wasapi_write (env : WEnv) (w : Hand) (data : List Nat) :
    Option Nat × Hand × WEnv × List WEvent :=
  if w.blocking then wasapi_write_loop env w data 0
  else wasapi_write_step env w data

/-- `wasapi_stop`: on a failed `IAudioClient::Stop` the state is unchanged
and `!w->running` is returned; on success `running` is cleared. -/
def wasapi_stop (hrOk : Bool) (w : Hand) : Bool × Hand :=
  if hrOk then (true, { w with running := false }) else (!w.running, w)

/-- `wasapi_start`: on a failed `IAudioClient::Start` the state is unchanged
and `w->running` is returned; on success `running` is set. -/
def wasapi_start (hrOk : Bool) (w : Hand) : Bool × Hand :=
  if hrOk then (true, { w with running := true }) else (w.running, w)

/-- `wasapi_alive`. -/
def wasapi_alive (w : Hand) : Bool := w.running

/-- `wasapi_set_nonblock_state`. -/
def wasapi_set_nonblock_state (w : Hand) (nonblock : Bool) : Hand :=
  { w with blocking := !nonblock }

/-- `wasapi_use_float`: `w->frame_size == 8`. -/
def wasapi_use_float (w : Hand) : Bool := w.frameSize == 8

/-- Actions performed by `wasapi_free`, in order of execution. -/
inductive FreeAct
  | releaseRenderer
  | stopClient
  | releaseClient
  | releaseDevice
  | coUninit
  | freeBuffer
  | freeHandle
  | waitEvent (timeoutMs : Nat)
  | logWaitFailed
  | logLeak
  | closeEvent
deriving DecidableEq, Repr

/-- Which resources of the handle are non-NULL when `wasapi_free` runs. -/
structure FreeState where
  renderer : Bool
  client   : Bool
  device   : Bool
  buffer   : Bool
deriving DecidableEq, Repr

/-- `wasapi_free` as the sequence of actions it performs, given the wait
outcome of the final 20 ms `WaitForSingleObject` on the write event. -/
def wasapi_free (s : FreeState) (wr : WaitRes) : List FreeAct :=
  (if s.renderer then [.releaseRenderer] else []) ++
  (if s.client then [.stopClient] else []) ++
  (if s.client then [.releaseClient] else []) ++
  (if s.device then [.releaseDevice] else []) ++
  [.coUninit] ++
  (if s.buffer then [.freeBuffer] else []) ++
  [.freeHandle, .waitEvent 20] ++
  (if wr = .failed then [.logWaitFailed] else []) ++
  (if wr = .obj0 then [.closeEvent] else [.logLeak])

/-- One slot of the enumerated active render endpoints, as seen by the loop
of `wasapi_init_device`: either `IMMDeviceCollection::Item` failed for the
slot, or it produced a device `dev` whose id string is `devId`;
`checkOk = false` models `wasapi_check_device_id` failing internally
(conversion or `GetId` error), which makes the comparison answer `false`. -/
inductive EnumSlot
  | itemFail
  | item (dev : Nat) (devId : String) (checkOk : Bool)
deriving DecidableEq, Repr

/-- Oracle for one `wasapi_init_device` call: outcome of `CoCreateInstance`,
of `EnumAudioEndpoints`/`GetCount` (`none` = either failed), and of
`GetDefaultAudioEndpoint`. -/
structure DevOracle where
  coCreate   : Bool
  slots      : Option (List EnumSlot)
  defaultDev : Option Nat
deriving DecidableEq, Repr

/-- The enumeration loop of `wasapi_init_device`: `Item` failures and
failed id checks skip the slot; the first successful exact id match wins. -/
def findMatch (s : String) : List EnumSlot → Option Nat
  | [] => none
  | .itemFail :: rest => findMatch s rest
  | .item dev devId checkOk :: rest =>
    if checkOk && devId == s then some dev else findMatch s rest

/-- `wasapi_init_device`: with an id, enumerate and look for an exact match
(no match is an error); without an id, ask for the default render endpoint. -/
def wasapi_init_device (o : DevOracle) (id : Option String) : Option Nat :=
  if !o.coCreate then none
  else
    match id with
    | some s =>
      match o.slots with
      | none => none
      | some slots => findMatch s slots
    | none => o.defaultDev

/-- Device resolution as performed by `wasapi_init`:
`w->device = wasapi_init_device(dev_id); if (!w->device && dev_id)
w->device = wasapi_init_device(NULL);`.  The second oracle is consumed only
by the fallback call. -/
def resolveDevice (o1 o2 : DevOracle) (id : Option String) : Option Nat :=
  match wasapi_init_device o1 id with
  | some d => some d
  | none =>
    match id with
    | some _ => wasapi_init_device o2 none
    | none => none

/-- Responses of `IAudioClient::Initialize` modelled by the driver:
`ok` is a success HRESULT; every other constructor is one of the failure
codes the driver distinguishes (`AUDCLNT_E_UNSUPPORTED_FORMAT`,
`AUDCLNT_E_ALREADY_INITIALIZED`, `AUDCLNT_E_BUFFER_SIZE_NOT_ALIGNED`,
`AUDCLNT_E_DEVICE_IN_USE`, `AUDCLNT_E_EXCLUSIVE_MODE_NOT_ALLOWED`),
plus `otherFail` for any other failed HRESULT. -/
inductive InitResp
  | ok
  | unsupported
  | alreadyInit
  | notAligned
  | inUse
  | notAllowed
  | otherFail
deriving DecidableEq, Repr

/-- One `IAudioClient::Initialize` invocation: requested share mode
(`shared = true` for `AUDCLNT_SHAREMODE_SHARED`), float flag, and rate. -/
structure ICall where
  shared : Bool
  flt    : Bool
  rate   : Nat
deriving DecidableEq, Repr

/-- Engine oracle for the negotiation path: responses, in call order, of
`IMMDevice::Activate`, `IAudioClient::GetDevicePeriod`,
`IAudioClient::GetBufferSize` (`none` = failed), and `Initialize`. -/
structure NegEnv where
  activates : List Bool
  periods   : List Bool
  bufSizes  : List (Option Nat)
  inits     : List InitResp
deriving DecidableEq, Repr

def NegEnv.popActivate (env : NegEnv) : Bool × NegEnv :=
  (env.activates.headD false,
   ⟨env.activates.tail, env.periods, env.bufSizes, env.inits⟩)

def NegEnv.popPeriod (env : NegEnv) : Bool × NegEnv :=
  (env.periods.headD false,
   ⟨env.activates, env.periods.tail, env.bufSizes, env.inits⟩)

def NegEnv.popBufSize (env : NegEnv) : Option Nat × NegEnv :=
  (env.bufSizes.headD none,
   ⟨env.activates, env.periods, env.bufSizes.tail, env.inits⟩)

def NegEnv.popInit (env : NegEnv) : InitResp × NegEnv :=
  (env.inits.headD .otherFail,
   ⟨env.activates, env.periods, env.bufSizes, env.inits.tail⟩)

/-- `wasapi_pref_rate`: the table `{ 48000, 44100, 96000, 192000 }` with 0
returned past the end. -/
def wasapi_pref_rate (i : Nat) : Nat :=
  [48000, 44100, 96000, 192000].getD i 0

/-- What one iteration body of the format loops can conclude:
abort the whole init-client call (`goto error` / `return NULL`), leave both
loops with a final HRESULT (`i = 2; break;`), or advance to the next rate
(`AUDCLNT_E_UNSUPPORTED_FORMAT`). -/
inductive BodyOut
  | fatal
  | broke (hr : InitResp)
  | unsupp
deriving DecidableEq, Repr

/-- Shared tail of both loop bodies: a non-`unsupported` HRESULT breaks out
of both loops, `unsupported` advances the rate. -/
def stepBreak (hr : InitResp) (env : NegEnv) (tr : List ICall) :
    BodyOut × NegEnv × List ICall :=
  if hr = .unsupported then (.unsupp, env, tr) else (.broke hr, env, tr)

/-- Loop body of `wasapi_init_client_sh` for one `(float, rate)` candidate:
`Initialize` in shared mode; on `AUDCLNT_E_ALREADY_INITIALIZED` the client
is re-activated (an `Activate` failure returns NULL from the whole call)
and `Initialize` retried once on the same format. -/
def shBody (f : Bool) (rate : Nat) (env : NegEnv) (tr : List ICall) :
    BodyOut × NegEnv × List ICall :=
  let p := NegEnv.popInit env
  let tr1 := tr ++ [⟨true, f, rate⟩]
  if p.1 = .alreadyInit then
    let a := NegEnv.popActivate p.2
    if !a.1 then (.fatal, a.2, tr1)
    else
      let q := NegEnv.popInit a.2
      stepBreak q.1 q.2 (tr1 ++ [⟨true, f, rate⟩])
  else stepBreak p.1 p.2 tr1

/-- Final HRESULT dispatch of the exclusive loop body:
`AUDCLNT_E_DEVICE_IN_USE` and `AUDCLNT_E_EXCLUSIVE_MODE_NOT_ALLOWED` are
mode-fatal (`goto error`); `unsupported` advances; anything else breaks. -/
def exFinish (hr : InitResp) (env : NegEnv) (tr : List ICall) :
    BodyOut × NegEnv × List ICall :=
  if hr = .unsupported then (.unsupp, env, tr)
  else if hr = .inUse then (.fatal, env, tr)
  else if hr = .notAllowed then (.fatal, env, tr)
  else (.broke hr, env, tr)

/-- `AUDCLNT_E_ALREADY_INITIALIZED` handling of the exclusive loop body:
re-activate and fall back to a SHARED-mode `Initialize` on the same
format. -/
def exShFallback (hr : InitResp) (env : NegEnv) (tr : List ICall)
    (f : Bool) (rate : Nat) : BodyOut × NegEnv × List ICall :=
  if hr = .alreadyInit then
    let a := NegEnv.popActivate env
    if !a.1 then (.fatal, a.2, tr)
    else
      let q := NegEnv.popInit a.2
      exFinish q.1 q.2 (tr ++ [⟨true, f, rate⟩])
  else exFinish hr env tr

/-- `AUDCLNT_E_BUFFER_SIZE_NOT_ALIGNED` handling of the exclusive loop
body: query `GetBufferSize` (failure is `goto error`), re-activate,
recompute the buffer duration, and retry `Initialize` once in exclusive
mode on the same format. -/
def exAligned (hr : InitResp) (env : NegEnv) (tr : List ICall)
    (f : Bool) (rate : Nat) : BodyOut × NegEnv × List ICall :=
  if hr = .notAligned then
    match NegEnv.popBufSize env with
    | (none, env1) => (.fatal, env1, tr)
    | (some _, env1) =>
      let a := NegEnv.popActivate env1
      if !a.1 then (.fatal, a.2, tr)
      else
        let q := NegEnv.popInit a.2
        exShFallback q.1 q.2 (tr ++ [⟨false, f, rate⟩]) f rate
  else exShFallback hr env tr f rate

/-- Loop body of `wasapi_init_client_ex` for one `(float, rate)`
candidate. -/
def exBody (f : Bool) (rate : Nat) (env : NegEnv) (tr : List ICall) :
    BodyOut × NegEnv × List ICall :=
  let p := NegEnv.popInit env
  exAligned p.1 p.2 (tr ++ [⟨false, f, rate⟩]) f rate

/-- Outcome of one pass of the inner rate loop. -/
inductive InnerOut
  | fatal
  | broke (hr : InitResp) (rate : Nat)
  | exhausted (hr : InitResp)
deriving DecidableEq, Repr

/-- The inner rate loop shared by both init-client variants:
`for (j = 0; rate_res; ++j) { ...; rate_res = wasapi_pref_rate(j);
if (rate_res == *rate) rate_res = wasapi_pref_rate(++j); }`.
`j` grows by at least one per iteration and every iteration with `j ≥ 4`
drives the rate to 0, so 8 units of fuel are never exhausted from the entry
point `j = 0`; the fuel only makes the recursion structural. -/
def innerLoop (body : Bool → Nat → NegEnv → List ICall → BodyOut × NegEnv × List ICall)
    (rReq : Nat) (f : Bool) :
    Nat → Nat → Nat → InitResp → NegEnv → List ICall →
    InnerOut × NegEnv × List ICall
  | 0, _, _, hr, env, tr => (.exhausted hr, env, tr)
  | fuel + 1, j, rate, hr, env, tr =>
    if rate = 0 then (.exhausted hr, env, tr)
    else
      match body f rate env tr with
      | (.fatal, env1, tr1) => (.fatal, env1, tr1)
      | (.broke hr1, env1, tr1) => (.broke hr1 rate, env1, tr1)
      | (.unsupp, env1, tr1) =>
        let r1 := wasapi_pref_rate j
        let jr : Nat × Nat :=
          if r1 = rReq then (j + 1, wasapi_pref_rate (j + 1)) else (j, r1)
        innerLoop body rReq f fuel (jr.1 + 1) jr.2 .unsupported env1 tr1

/-- The outer float loop (`for (i = 0; i < 2; ++i)`) plus the final
`WASAPI_HR_CHECK(hr, "IAudioClient::Initialize", goto error)`: the first
pass uses the requested float preference, the second the opposite one; the
HRESULT variable enters holding the success of the preceding API call and
is returned to the caller untouched when no `Initialize` ever runs. -/
def clientLoop (body : Bool → Nat → NegEnv → List ICall → BodyOut × NegEnv × List ICall)
    (env : NegEnv) (flt : Bool) (rReq : Nat) :
    Option (Bool × Nat) × NegEnv × List ICall :=
  match innerLoop body rReq flt 8 0 rReq .ok env [] with
  | (.fatal, env1, tr1) => (none, env1, tr1)
  | (.broke hr rate, env1, tr1) =>
    (if hr = .ok then some (flt, rate) else none, env1, tr1)
  | (.exhausted hr1, env1, tr1) =>
    match innerLoop body rReq (!flt) 8 0 rReq hr1 env1 tr1 with
    | (.fatal, env2, tr2) => (none, env2, tr2)
    | (.broke hr rate, env2, tr2) =>
      (if hr = .ok then some (!flt, rate) else none, env2, tr2)
    | (.exhausted hr2, env2, tr2) =>
      (if hr2 = .ok then some (!flt, 0) else none, env2, tr2)

/-- `wasapi_init_client_sh`: `Activate`, then the format loops in shared
mode.  On success the negotiated `(float, rate)` pair is reported through
the out-parameters, modelled as the `some` payload. -/
def wasapi_init_client_sh (env : NegEnv) (flt : Bool) (rReq : Nat) :
    Option (Bool × Nat) × NegEnv × List ICall :=
  let pa := NegEnv.popActivate env
  if pa.1 then clientLoop shBody pa.2 flt rReq
  else (none, pa.2, [])

/-- `wasapi_init_client_ex`: `Activate`, `GetDevicePeriod`, then the format
loops in exclusive mode. -/
def wasapi_init_client_ex (env : NegEnv) (flt : Bool) (rReq : Nat) :
    Option (Bool × Nat) × NegEnv × List ICall :=
  let pa := NegEnv.popActivate env
  if pa.1 then
    let pp := NegEnv.popPeriod pa.2
    if pp.1 then clientLoop exBody pp.2 flt rReq
    else (none, pp.2, [])
  else (none, pa.2, [])

/-- `wasapi_init_client`: the caller's preferred mode is attempted first;
on total failure the other mode is attempted and, if it succeeds, the
`*exclusive` flag is flipped to the mode that succeeded.  The returned
Bool is the final value of `*exclusive`. -/
def wasapi_init_client (env : NegEnv) (exclusive flt : Bool) (rReq : Nat) :
    Option (Bool × Nat) × Bool × NegEnv × List ICall :=
  if exclusive then
    match wasapi_init_client_ex env flt rReq with
    | (some c, env1, tr1) => (some c, true, env1, tr1)
    | (none, env1, tr1) =>
      match wasapi_init_client_sh env1 flt rReq with
      | (some c, env2, tr2) => (some c, false, env2, tr1 ++ tr2)
      | (none, env2, tr2) => (none, true, env2, tr1 ++ tr2)
  else
    match wasapi_init_client_sh env flt rReq with
    | (some c, env1, tr1) => (some c, false, env1, tr1)
    | (none, env1, tr1) =>
      match wasapi_init_client_ex env1 flt rReq with
      | (some c, env2, tr2) => (some c, true, env2, tr1 ++ tr2)
      | (none, env2, tr2) => (none, false, env2, tr1 ++ tr2)

/-- Oracle for a whole `wasapi_init` call: the two device-resolution
oracles (the second consumed only by the default-endpoint fallback), the
negotiation oracle, and the outcomes of the remaining native calls:
allocation of the handle, `CoInitializeEx`, `GetBufferSize` after
negotiation, allocation of the staging buffer, `CreateEventA`,
`SetEventHandle`, `GetService`, and the silence-priming `GetBuffer` /
`ReleaseBuffer` pair. -/
structure InitEnv where
  dev1             : DevOracle
  dev2             : DevOracle
  neg              : NegEnv
  wAllocOk         : Bool
  coInitOk         : Bool
  bufSizeQ         : Option Nat
  bufAllocOk       : Bool
  eventOk          : Bool
  setEventOk       : Bool
  serviceOk        : Bool
  silenceGetOk     : Bool
  silenceReleaseOk : Bool
deriving DecidableEq, Repr

/-- `wasapi_init`: resolve the device (with default fallback), negotiate
the session, compute `frame_size` and `buffer_size` from the negotiated
format (`GetBufferSize` returns a UINT32 frame count), allocate the staging
buffer in exclusive mode, create and bind the write event, and prime the
engine buffer with silence.  Any failure returns NULL (`none`).  On success
the handle (zero initialized by `calloc`, hence non-blocking and stopped)
and the negotiated rate written through `*new_rate` are returned.  The
requested latency only feeds the negotiation oracle, so it does not appear
as a parameter. -/
def wasapi_init (e : InitEnv) (devId : Option String) (rate : Nat)
    (exclusivePref floatPref : Bool) : Option (Hand × Nat) :=
  if !e.wAllocOk then none
  else if !e.coInitOk then none
  else
    match resolveDevice e.dev1 e.dev2 devId with
    | none => none
    | some _ =>
      match wasapi_init_client e.neg exclusivePref floatPref rate with
      | (none, _, _, _) => none
      | (some (flt, nrate), exclusive, _, _) =>
        match e.bufSizeQ with
        | none => none
        | some fcRaw =>
          let frame_count := fcRaw % 2 ^ 32
          let frame_size : Nat := if flt then 8 else 4
          let buffer_size := frame_count * frame_size
          if exclusive && !e.bufAllocOk then none
          else if !e.eventOk then none
          else if !e.setEventOk then none
          else if !e.serviceOk then none
          else if !e.silenceGetOk then none
          else if !e.silenceReleaseOk then none
          else
            some ({ hasBuffer := exclusive, staging := [],
                    bufferSize := buffer_size, usage := 0,
                    frameSize := frame_size, blocking := false,
                    running := false }, nrate)

/-- The operations the registry can invoke on an open handle, with the
oracle data each consumes. -/
inductive DriverOp
  | write (env : WEnv) (data : List Nat)
  | start (hrOk : Bool)
  | stop (hrOk : Bool)
  | setNonblock (nonblock : Bool)

/-- The handle state after one registry operation. -/
def applyOp (w : Hand) : DriverOp → Hand
  | .write env data => (wasapi_write env w data).2.1
  | .start hrOk => (wasapi_start hrOk w).2
  | .stop hrOk => (wasapi_stop hrOk w).2
  | .setNonblock nb => wasapi_set_nonblock_state w nb

/-- Handle invariant: `frame_size ∈ {4, 8}`, `buffer_size` a multiple of
`frame_size` and representable in `size_t`, `buffer_usage` within the
buffer, and the modelled staging contents consistent with the counter. -/
def WInv (w : Hand) : Prop :=
  (w.frameSize = 4 ∨ w.frameSize = 8) ∧
  w.bufferSize % w.frameSize = 0 ∧
  w.bufferSize < SZ ∧
  w.usage ≤ w.bufferSize ∧
  w.staging.length = w.usage

instance (w : Hand) : Decidable (WInv w) := by unfold WInv; infer_instance

/-- The preference list of standard rates, as the spec words it. -/
def specPrefRates : List Nat := [48000, 44100, 96000, 192000]

/-- The rate order of one half of a mode attempt, as the spec words it:
the requested rate first, then the preference list with the requested rate
skipped. -/
def specRateOrder (r : Nat) : List Nat :=
  r :: specPrefRates.filter (fun x => x ≠ r)

/-- The full `(float, rate)` candidate order of a mode attempt, as the spec
words it: the requested float preference over the rate order, then the
opposite float preference over the same rate order. -/
def specCandidates (f : Bool) (r : Nat) : List (Bool × Nat) :=
  (specRateOrder r).map (fun x => (f, x)) ++
  (specRateOrder r).map (fun x => (!f, x))

/-- Modelled from the spec: walk the candidate list in order, consuming one
engine answer per candidate, and stop at the first candidate the engine
accepts; any answer other than accept / unsupported-format (including the
engine running dry) stops the walk in failure.  Returns the accepted
candidate (if any) and the candidates actually tried, in order. -/
def specTry : List (Bool × Nat) → List InitResp →
    Option (Bool × Nat) × List (Bool × Nat)
  | [], _ => (none, [])
  | c :: cs, rs =>
    match rs with
    | [] => (none, [c])
    | r :: rs1 =>
      if r = .ok then (some c, [c])
      else if r = .unsupported then
        let t := specTry cs rs1
        (t.1, c :: t.2)
      else (none, [c])

/-- The rates still to be tried by the inner loop after the current one,
when the loop variable is `j`: the tail of the preference table from `j`,
with the requested rate skipped. -/
def restRates (rReq j : Nat) : List Nat :=
  (specPrefRates.drop j).filter (fun x => x ≠ rReq)

/-- Reference walker: the inner loop with its rate schedule made explicit
as a list.  `innerLoop` is proved equal to it below. -/
def walkBody (body : Bool → Nat → NegEnv → List ICall → BodyOut × NegEnv × List ICall)
    (f : Bool) :
    List Nat → InitResp → NegEnv → List ICall → InnerOut × NegEnv × List ICall
  | [], hr, env, tr => (.exhausted hr, env, tr)
  | rate :: rest, hr, env, tr =>
    match body f rate env tr with
    | (.fatal, env1, tr1) => (.fatal, env1, tr1)
    | (.broke hr1, env1, tr1) => (.broke hr1 rate, env1, tr1)
    | (.unsupp, env1, tr1) => walkBody body f rest .unsupported env1 tr1

theorem subsz_of_le {a b : Nat} (hb : b ≤ a) (ha : a < SZ) : subsz a b = a - b := by
  unfold subsz
  have h1 : a + SZ - b = (a - b) + SZ := by omega
  rw [h1, Nat.add_mod_right, Nat.mod_eq_of_lt (by omega)]

theorem subsz_zero {a : Nat} (ha : a < SZ) : subsz a 0 = a := by
  rw [subsz_of_le (Nat.zero_le a) ha]; omega

/-- C8: after a successful `stop`, a second `stop` in a row — whatever the
engine answers to it — leaves `alive()` unchanged and returns `true`
(success) instead of an error; likewise a second `start` after a successful
`start` leaves `alive()` unchanged and returns `true`. -/
theorem start_stop_idempotent (w : Hand) (hr2 : Bool) :
    (wasapi_alive (wasapi_stop hr2 (wasapi_stop true w).2).2
        = wasapi_alive (wasapi_stop true w).2
      ∧ (wasapi_stop hr2 (wasapi_stop true w).2).1 = true)
    ∧ (wasapi_alive (wasapi_start hr2 (wasapi_start true w).2).2
        = wasapi_alive (wasapi_start true w).2
      ∧ (wasapi_start hr2 (wasapi_start true w).2).1 = true) := by
  cases hr2 <;> simp [wasapi_stop, wasapi_start, wasapi_alive]

/-- C9: `wasapi_free` performs the releases in the order renderer, client
stop, client, device (each skipped when the resource is NULL, without
failing), then exactly one bounded 20 ms wait on the write event, and the
event handle is closed only when that wait observes the signal; in every
other wait outcome the handle is leaked (with a diagnostic). -/
theorem free_trace_spec (s : FreeState) (wr : WaitRes) :
    ((if s.renderer then [FreeAct.releaseRenderer] else []) ++
     (if s.client then [FreeAct.stopClient, FreeAct.releaseClient] else []) ++
     (if s.device then [FreeAct.releaseDevice] else []) ++
     [FreeAct.waitEvent 20] ++
     (if wr = WaitRes.obj0 then [FreeAct.closeEvent] else [])).Sublist
      (wasapi_free s wr)
    ∧ ((FreeAct.closeEvent ∈ wasapi_free s wr) ↔ wr = WaitRes.obj0)
    ∧ ((FreeAct.logLeak ∈ wasapi_free s wr) ↔ wr ≠ WaitRes.obj0)
    ∧ (wasapi_free s wr).filter
        (fun a => match a with | .waitEvent _ => true | _ => false)
        = [FreeAct.waitEvent 20]
    ∧ ((FreeAct.releaseRenderer ∈ wasapi_free s wr) ↔ s.renderer = true)
    ∧ ((FreeAct.stopClient ∈ wasapi_free s wr) ↔ s.client = true)
    ∧ ((FreeAct.releaseClient ∈ wasapi_free s wr) ↔ s.client = true)
    ∧ ((FreeAct.releaseDevice ∈ wasapi_free s wr) ↔ s.device = true) := by
  obtain ⟨r, c, d, b⟩ := s
  cases r <;> cases c <;> cases d <;> cases b <;> cases wr <;> decide

/-- The handle fields the write path never assigns. -/
def cfgEq (a b : Hand) : Prop :=
  a.hasBuffer = b.hasBuffer ∧ a.bufferSize = b.bufferSize ∧
  a.frameSize = b.frameSize ∧ a.blocking = b.blocking ∧ a.running = b.running

theorem cfgEq_refl (a : Hand) : cfgEq a a := ⟨rfl, rfl, rfl, rfl, rfl⟩

theorem cfgEq_trans {a b c : Hand} (h1 : cfgEq a b) (h2 : cfgEq b c) : cfgEq a c := by
  obtain ⟨x1, x2, x3, x4, x5⟩ := h1
  obtain ⟨y1, y2, y3, y4, y5⟩ := h2
  exact ⟨x1.trans y1, x2.trans y2, x3.trans y3, x4.trans y4, x5.trans y5⟩

theorem write_sh_hand (env : WEnv) (w : Hand) (data : List Nat) :
    (wasapi_write_sh env w data).2.1 = w := by
  unfold wasapi_write_sh
  dsimp only
  repeat' split
  all_goals rfl

theorem exFullBranch_state (env : WEnv) (w : Hand) :
    (∀ r, (exFullBranch env w).1 = ExStep.early r → (exFullBranch env w).2.1 = w)
    ∧ ((exFullBranch env w).1 = ExStep.proceed →
        (exFullBranch env w).2.1 = { w with usage := 0, staging := [] }) := by
  unfold exFullBranch
  dsimp only
  repeat' split
  all_goals constructor
  all_goals intro h
  all_goals intros
  all_goals simp_all

theorem stage_inv (w1 : Hand) (data : List Nat) (hinv : WInv w1) :
    WInv { w1 with
            usage := w1.usage + min data.length (subsz w1.bufferSize w1.usage),
            staging := w1.staging ++
              data.take (min data.length (subsz w1.bufferSize w1.usage)) } := by
  obtain ⟨h4, hmod, hsz, hle, hlen⟩ := hinv
  have hs : subsz w1.bufferSize w1.usage = w1.bufferSize - w1.usage :=
    subsz_of_le hle hsz
  refine ⟨h4, hmod, hsz, ?_, ?_⟩ <;>
    simp [hs, List.length_take] <;> omega

theorem write_ex_hand (env : WEnv) (w : Hand) (data : List Nat) :
    cfgEq (wasapi_write_ex env w data).2.1 w ∧
    (WInv w → WInv (wasapi_write_ex env w data).2.1) := by
  unfold wasapi_write_ex
  by_cases hu : w.usage = w.bufferSize
  · simp only [hu, if_true]
    have hstate := exFullBranch_state env w
    rcases hx : exFullBranch env w with ⟨st, w1, env1, log1⟩
    rw [hx] at hstate
    cases st with
    | early r =>
      have hw1 : w1 = w := hstate.1 r rfl
      subst hw1
      exact ⟨cfgEq_refl _, fun h => h⟩
    | proceed =>
      have hw1 : w1 = { w with usage := 0, staging := [] } := hstate.2 rfl
      subst hw1
      constructor
      · exact ⟨rfl, rfl, rfl, rfl, rfl⟩
      · intro hinv
        obtain ⟨h4, hmod, hsz, hle, hlen⟩ := hinv
        exact stage_inv _ data ⟨h4, hmod, hsz, Nat.zero_le _, rfl⟩
  · simp only [hu, if_false]
    constructor
    · exact ⟨rfl, rfl, rfl, rfl, rfl⟩
    · intro hinv
      exact stage_inv w data hinv

theorem write_step_hand (env : WEnv) (w : Hand) (data : List Nat) :
    cfgEq (wasapi_write_step env w data).2.1 w ∧
    (WInv w → WInv (wasapi_write_step env w data).2.1) := by
  unfold wasapi_write_step
  by_cases hb : w.hasBuffer <;> simp only [hb, if_true, Bool.false_eq_true, if_false]
  · exact write_ex_hand env w data
  · rw [write_sh_hand]
    exact ⟨cfgEq_refl w, fun h => h⟩

theorem write_loop_hand (env : WEnv) (w : Hand) (data : List Nat) (writen : Nat) :
    cfgEq (wasapi_write_loop env w data writen).2.1 w ∧
    (WInv w → WInv (wasapi_write_loop env w data writen).2.1) := by
  induction env, w, data, writen using wasapi_write_loop.induct with
  | case1 env w data writen h w1 env1 log1 hstep =>
    rw [wasapi_write_loop, dif_pos h]
    have hs := write_step_hand env w (data.drop writen)
    rw [hstep] at hs ⊢
    exact hs
  | case2 env w data writen h w1 env1 log1 hstep =>
    rw [wasapi_write_loop, dif_pos h]
    have hs := write_step_hand env w (data.drop writen)
    rw [hstep] at hs ⊢
    exact hs
  | case3 env w data writen h k w1 env1 log1 hstep ih =>
    rw [wasapi_write_loop, dif_pos h]
    have hs := write_step_hand env w (data.drop writen)
    rw [hstep] at hs ⊢
    exact ⟨cfgEq_trans ih.1 hs.1, fun hw => ih.2 (hs.2 hw)⟩
  | case4 env w data writen h =>
    rw [wasapi_write_loop, dif_neg h]
    exact ⟨cfgEq_refl w, fun hw => hw⟩

theorem write_hand (env : WEnv) (w : Hand) (data : List Nat) :
    cfgEq (wasapi_write env w data).2.1 w ∧
    (WInv w → WInv (wasapi_write env w data).2.1) := by
  unfold wasapi_write
  by_cases hb : w.blocking <;> simp only [hb, if_true, Bool.false_eq_true, if_false]
  · exact write_loop_hand env w data 0
  · exact write_step_hand env w data

theorem applyOp_hand (w : Hand) (op : DriverOp) :
    (applyOp w op).frameSize = w.frameSize ∧
    (applyOp w op).bufferSize = w.bufferSize ∧
    (applyOp w op).hasBuffer = w.hasBuffer ∧
    (WInv w → WInv (applyOp w op)) := by
  cases op with
  | write env data =>
    have h := write_hand env w data
    exact ⟨h.1.2.2.1, h.1.2.1, h.1.1, h.2⟩
  | start hrOk =>
    cases hrOk <;>
      exact ⟨rfl, rfl, rfl, fun hw => hw⟩
  | stop hrOk =>
    cases hrOk <;>
      exact ⟨rfl, rfl, rfl, fun hw => hw⟩
  | setNonblock nb =>
    exact ⟨rfl, rfl, rfl, fun hw => hw⟩

theorem foldOps_hand (w : Hand) (ops : List DriverOp) :
    (List.foldl applyOp w ops).frameSize = w.frameSize ∧
    (List.foldl applyOp w ops).bufferSize = w.bufferSize ∧
    (List.foldl applyOp w ops).hasBuffer = w.hasBuffer ∧
    (WInv w → WInv (List.foldl applyOp w ops)) := by
  induction ops generalizing w with
  | nil => exact ⟨rfl, rfl, rfl, fun hw => hw⟩
  | cons op rest ih =>
    have h1 := applyOp_hand w op
    have h2 := ih (applyOp w op)
    simp only [List.foldl_cons]
    exact ⟨h2.1.trans h1.1, h2.2.1.trans h1.2.1, h2.2.2.1.trans h1.2.2.1,
           fun hw => h2.2.2.2 (h1.2.2.2 hw)⟩

theorem wasapi_init_some (e : InitEnv) (devId : Option String) (rate : Nat)
    (ep fp : Bool) (w : Hand) (nrate : Nat)
    (hopen : wasapi_init e devId rate ep fp = some (w, nrate)) :
    ∃ flt exclusive fcRaw,
      e.bufSizeQ = some fcRaw ∧
      (wasapi_init_client e.neg ep fp rate).1 = some (flt, nrate) ∧
      (wasapi_init_client e.neg ep fp rate).2.1 = exclusive ∧
      w = ⟨exclusive, [], (fcRaw % 2 ^ 32) * (if flt then 8 else 4), 0,
           (if flt then 8 else 4), false, false⟩ := by
  unfold wasapi_init at hopen
  split at hopen; · cases hopen
  split at hopen; · cases hopen
  split at hopen; · cases hopen
  split at hopen; · cases hopen
  rename_i flt nrate1 exclusive negE tr heqc
  split at hopen; · cases hopen
  rename_i fcRaw heqb
  cases flt
  case false =>
    simp only [Bool.false_eq_true, eq_self_iff_true, if_true, if_false] at hopen
    split at hopen; · cases hopen
    split at hopen; · cases hopen
    split at hopen; · cases hopen
    split at hopen; · cases hopen
    split at hopen; · cases hopen
    split at hopen; · cases hopen
    simp only [Option.some.injEq, Prod.mk.injEq] at hopen
    obtain ⟨hw, hn⟩ := hopen
    subst hn
    exact ⟨false, exclusive, fcRaw, heqb, by rw [heqc], by rw [heqc], hw.symm⟩
  case true =>
    simp only [Bool.false_eq_true, eq_self_iff_true, if_true, if_false] at hopen
    split at hopen; · cases hopen
    split at hopen; · cases hopen
    split at hopen; · cases hopen
    split at hopen; · cases hopen
    split at hopen; · cases hopen
    split at hopen; · cases hopen
    simp only [Option.some.injEq, Prod.mk.injEq] at hopen
    obtain ⟨hw, hn⟩ := hopen
    subst hn
    exact ⟨true, exclusive, fcRaw, heqb, by rw [heqc], by rw [heqc], hw.symm⟩

/-- C7: every successfully opened handle satisfies the handle invariant —
`frame_size ∈ {4, 8}`, `buffer_size` an exact multiple of `frame_size`,
`buffer_usage` in `[0, buffer_size]` — every registry operation preserves
it, and whenever the staging-full branch of `wasapi_write_ex` flushes, the
usage counter is 0 immediately after the flush, before new data is
staged. -/
theorem handle_invariants :
    (∀ e devId rate ep fp w nrate,
        wasapi_init e devId rate ep fp = some (w, nrate) → WInv w)
    ∧ (∀ (w : Hand) (ops : List DriverOp), WInv w → WInv (List.foldl applyOp w ops))
    ∧ (∀ (env : WEnv) (w : Hand), (exFullBranch env w).1 = ExStep.proceed →
        (exFullBranch env w).2.1.usage = 0) := by
  refine ⟨?_, ?_, ?_⟩
  · intro e devId rate ep fp w nrate hopen
    obtain ⟨flt, exclusive, fcRaw, hb, h1, h2, hw⟩ :=
      wasapi_init_some e devId rate ep fp w nrate hopen
    subst hw
    have hfc : fcRaw % 2 ^ 32 < 2 ^ 32 := Nat.mod_lt _ (by norm_num)
    cases flt
    · exact ⟨by norm_num, Nat.mul_mod_left _ _,
        by show fcRaw % 2 ^ 32 * 4 < SZ; unfold SZ; omega, Nat.zero_le _, rfl⟩
    · exact ⟨by norm_num, Nat.mul_mod_left _ _,
        by show fcRaw % 2 ^ 32 * 8 < SZ; unfold SZ; omega, Nat.zero_le _, rfl⟩
  · intro w ops hw
    exact (foldOps_hand w ops).2.2.2 hw
  · intro env w h
    exact ((exFullBranch_state env w).2 h) ▸ rfl

/-- C10: for a successfully opened handle, `wasapi_use_float` is true
exactly when `frame_size = 8`, which holds exactly when negotiation chose
the float format (PCM gives `frame_size = 4`); `frame_size` is assigned
only at open and no registry operation changes it, so `wasapi_use_float`
is constant over the handle's lifetime. -/
theorem use_float_spec (e : InitEnv) (devId : Option String) (rate : Nat)
    (ep fp : Bool) (w : Hand) (nrate : Nat)
    (hopen : wasapi_init e devId rate ep fp = some (w, nrate)) :
    ∃ flt, (wasapi_init_client e.neg ep fp rate).1 = some (flt, nrate) ∧
      wasapi_use_float w = flt ∧
      (wasapi_use_float w = true ↔ w.frameSize = 8) ∧
      (flt = true → w.frameSize = 8) ∧ (flt = false → w.frameSize = 4) ∧
      (∀ ops : List DriverOp,
        (List.foldl applyOp w ops).frameSize = w.frameSize ∧
        wasapi_use_float (List.foldl applyOp w ops) = wasapi_use_float w) := by
  obtain ⟨flt, exclusive, fcRaw, hb, h1, h2, hw⟩ :=
    wasapi_init_some e devId rate ep fp w nrate hopen
  subst hw
  refine ⟨flt, h1, ?_, ?_, ?_, ?_, ?_⟩
  · cases flt <;> rfl
  · cases flt <;> simp [wasapi_use_float]
  · intro h; cases flt
    · cases h
    · rfl
  · intro h; cases flt
    · rfl
    · cases h
  · intro ops
    refine ⟨(foldOps_hand _ ops).1, ?_⟩
    unfold wasapi_use_float
    rw [(foldOps_hand _ ops).1]

theorem handle_invariants_witness :
    WInv ⟨false, [], 64, 0, 4, false, false⟩ ∧
    (exFullBranch ⟨[WaitRes.obj0], [], [true]⟩
        ⟨true, [1, 2, 3, 4], 4, 4, 4, false, false⟩).2.1.usage = 0 ∧
    WInv (List.foldl applyOp ⟨false, [], 64, 0, 4, false, false⟩
        [DriverOp.setNonblock true]) :=
  ⟨handle_invariants.1
      ⟨⟨true, none, some 0⟩, ⟨true, none, none⟩, ⟨[true], [], [], [InitResp.ok]⟩,
        true, true, some 16, true, true, true, true, true, true⟩
      none 44100 false false ⟨false, [], 64, 0, 4, false, false⟩ 44100 rfl,
    handle_invariants.2.2 ⟨[WaitRes.obj0], [], [true]⟩
      ⟨true, [1, 2, 3, 4], 4, 4, 4, false, false⟩ rfl,
    handle_invariants.2.1 ⟨false, [], 64, 0, 4, false, false⟩
      [DriverOp.setNonblock true]
      (handle_invariants.1
        ⟨⟨true, none, some 0⟩, ⟨true, none, none⟩, ⟨[true], [], [], [InitResp.ok]⟩,
          true, true, some 16, true, true, true, true, true, true⟩
        none 44100 false false ⟨false, [], 64, 0, 4, false, false⟩ 44100 rfl)⟩

theorem use_float_spec_witness :
    (wasapi_init_client (⟨[true], [], [], [InitResp.ok]⟩ : NegEnv)
        false false 44100).1 = some (false, 44100) ∧
    wasapi_use_float ⟨false, [], 64, 0, 4, false, false⟩ = false := by
  obtain ⟨flt, h1, h2, h3, h4, h5, h6⟩ :=
    use_float_spec
      ⟨⟨true, none, some 0⟩, ⟨true, none, none⟩, ⟨[true], [], [], [InitResp.ok]⟩,
        true, true, some 16, true, true, true, true, true, true⟩
      none 44100 false false ⟨false, [], 64, 0, 4, false, false⟩ 44100 rfl
  have hc : (wasapi_init_client (⟨[true], [], [], [InitResp.ok]⟩ : NegEnv)
      false false 44100).1 = some (false, 44100) := by decide
  rw [hc] at h1
  have hflt : flt = false := by
    have := Option.some.inj h1
    exact (Prod.mk.injEq _ _ _ _ ▸ this).1.symm
  subst hflt
  exact ⟨hc, h2⟩

/-- C5: on an exclusive-mode non-blocking handle with full staging, a write
performs exactly one zero-timeout event check.  Unsignaled: return 0, state
untouched, nothing flushed.  Signaled (and the flush accepted): the whole
staging buffer (`buffer_size` bytes) is flushed, usage is reset, and
`min size buffer_size` bytes of the new data are staged and returned. -/
theorem write_ex_nonblock_full (w : Hand) (data : List Nat)
    (ws : List WaitRes) (ps : List (Option Nat)) (fs : List Bool)
    (hex : w.hasBuffer = true) (hnb : w.blocking = false)
    (hfull : w.usage = w.bufferSize) (hlen : w.staging.length = w.usage)
    (hsz : w.bufferSize < SZ) :
    w.staging.length = w.bufferSize
    ∧ (∀ r, r ≠ WaitRes.obj0 →
        wasapi_write ⟨r :: ws, ps, fs⟩ w data
          = (some 0, w, ⟨ws, ps, fs⟩, [WEvent.ewait (some 0)]))
    ∧ wasapi_write ⟨WaitRes.obj0 :: ws, ps, true :: fs⟩ w data
        = (some (min data.length w.bufferSize),
           { w with usage := min data.length w.bufferSize,
                    staging := data.take (min data.length w.bufferSize) },
           ⟨ws, ps, fs⟩,
           [WEvent.ewait (some 0), WEvent.eflush w.staging]) := by
  refine ⟨hlen.trans hfull, ?_, ?_⟩
  · intro r hr
    unfold wasapi_write wasapi_write_step wasapi_write_ex exFullBranch
    rw [hnb]
    simp only [Bool.false_eq_true, if_false, hex, if_true, hfull, if_pos rfl]
    cases r
    · exact absurd rfl hr
    all_goals simp [WEnv.popWait, hnb]
  · unfold wasapi_write wasapi_write_step wasapi_write_ex exFullBranch
    rw [hnb]
    simp only [Bool.false_eq_true, if_false, hex, if_true, hfull, if_pos rfl]
    simp [WEnv.popWait, WEnv.popFlush, hnb, subsz_zero hsz]

theorem write_ex_nonblock_full_witness :
    wasapi_write ⟨[WaitRes.timedOut], [], []⟩
        ⟨true, [1, 2, 3, 4], 4, 4, 4, false, false⟩ [9, 9]
      = (some 0, ⟨true, [1, 2, 3, 4], 4, 4, 4, false, false⟩, ⟨[], [], []⟩,
         [WEvent.ewait (some 0)])
    ∧ wasapi_write ⟨[WaitRes.obj0], [], [true]⟩
        ⟨true, [1, 2, 3, 4], 4, 4, 4, false, false⟩ [9, 9]
      = (some 2, ⟨true, [9, 9], 4, 2, 4, false, false⟩, ⟨[], [], []⟩,
         [WEvent.ewait (some 0), WEvent.eflush [1, 2, 3, 4]]) :=
  ⟨(write_ex_nonblock_full ⟨true, [1, 2, 3, 4], 4, 4, 4, false, false⟩ [9, 9]
      [] [] [] rfl rfl rfl rfl (by unfold SZ; norm_num)).2.1 WaitRes.timedOut (by decide),
   (write_ex_nonblock_full ⟨true, [1, 2, 3, 4], 4, 4, 4, false, false⟩ [9, 9]
      [] [] [] rfl rfl rfl rfl (by unfold SZ; norm_num)).2.2⟩

theorem popPad_mem (env : WEnv) (p : Nat) (env2 : WEnv)
    (h : WEnv.popPad env = (some p, env2)) : some p ∈ env.pads := by
  unfold WEnv.popPad at h
  have h1 : env.pads.headD none = some p := (Prod.mk.injEq _ _ _ _ ▸ h).1
  cases hp : env.pads with
  | nil => rw [hp] at h1; cases h1
  | cons a t =>
    rw [hp] at h1
    simp only [List.headD_cons] at h1
    rw [h1]
    exact List.mem_cons_self _ _

theorem write_sh_pads (env : WEnv) (w : Hand) (data : List Nat) :
    (wasapi_write_sh env w data).2.2.1.pads = env.pads ∨
    (wasapi_write_sh env w data).2.2.1.pads = env.pads.tail := by
  unfold wasapi_write_sh WEnv.popWait WEnv.popPad WEnv.popFlush
  dsimp only
  repeat' split
  all_goals simp_all

theorem exFullBranch_res (env : WEnv) (w : Hand) :
    ∀ r, (exFullBranch env w).1 = ExStep.early r → r = none ∨ r = some 0 := by
  unfold exFullBranch
  dsimp only
  repeat' split
  all_goals intro r h
  all_goals simp_all

theorem write_ex_le (env : WEnv) (w : Hand) (data : List Nat) :
    ∀ k, (wasapi_write_ex env w data).1 = some k → k ≤ data.length := by
  intro k
  unfold wasapi_write_ex
  dsimp only
  split
  case h_1 r heq =>
    intro h
    dsimp only at h
    subst h
    by_cases hu : w.usage = w.bufferSize
    · rw [if_pos hu] at heq
      rcases exFullBranch_res env w _ heq with h1 | h1 <;> simp_all
    · rw [if_neg hu] at heq
      cases heq
  case h_2 heq =>
    intro h
    dsimp only at h
    rw [Option.some_inj] at h
    subst h
    exact Nat.min_le_left _ _

theorem write_sh_le (env : WEnv) (w : Hand) (data : List Nat) :
    ∀ k, (wasapi_write_sh env w data).1 = some k → k ≤ data.length := by
  intro k
  unfold wasapi_write_sh
  dsimp only
  repeat' split
  all_goals intro h
  all_goals simp only [Option.some.injEq] at h
  all_goals try cases h
  all_goals omega

theorem write_step_le (env : WEnv) (w : Hand) (data : List Nat) :
    ∀ k, (wasapi_write_step env w data).1 = some k → k ≤ data.length := by
  intro k
  unfold wasapi_write_step
  by_cases hb : w.hasBuffer <;>
    simp only [hb, if_true, Bool.false_eq_true, if_false]
  · exact write_ex_le env w data k
  · exact write_sh_le env w data k

/-- All padding answers the oracle still holds report nonzero available
space for the given buffer/frame sizes. -/
def padsOkL (bs fs : Nat) (ps : List (Option Nat)) : Prop :=
  ∀ po ∈ ps, ∀ p, po = some p → subsz bs (p * fs) ≠ 0

theorem padsOkL_tail {bs fs : Nat} {ps : List (Option Nat)}
    (h : padsOkL bs fs ps) : padsOkL bs fs ps.tail := by
  intro po hmem p hp
  exact h po (List.mem_of_mem_tail hmem) p hp

theorem headD_mem_pads {ps : List (Option Nat)} {p : Nat}
    (h : ps.headD none = some p) : some p ∈ ps := by
  cases ps with
  | nil => cases h
  | cons a t =>
    rw [List.headD_cons] at h
    rw [h]
    exact List.mem_cons_self _ _

theorem exFullBranch_res_blocking (env : WEnv) (w : Hand)
    (hb : w.blocking = true) :
    ∀ r, (exFullBranch env w).1 = ExStep.early r → r = none := by
  unfold exFullBranch
  dsimp only
  repeat' split
  all_goals intro r h
  all_goals simp_all

theorem write_ex_pos (env : WEnv) (w : Hand) (data : List Nat)
    (hb : w.blocking = true) (hinv : WInv w) (hbs : 0 < w.bufferSize)
    (hd : data ≠ []) :
    (wasapi_write_ex env w data).1 ≠ some 0 := by
  obtain ⟨h4, hmod, hsz, hle, hlen⟩ := hinv
  have hdlen : data.length ≠ 0 := fun hh => hd (List.length_eq_zero.mp hh)
  unfold wasapi_write_ex
  dsimp only
  split
  case h_1 r heq =>
    intro h
    dsimp only at h
    subst h
    by_cases hu : w.usage = w.bufferSize
    · rw [if_pos hu] at heq
      cases exFullBranch_res_blocking env w hb _ heq
    · rw [if_neg hu] at heq
      cases heq
  case h_2 heq =>
    intro h
    dsimp only at h
    rw [Option.some_inj] at h
    by_cases hu : w.usage = w.bufferSize
    · rw [if_pos hu] at heq h
      have hst := (exFullBranch_state env w).2 heq
      rw [hst] at h
      dsimp only at h
      rw [subsz_zero hsz] at h
      omega
    · rw [if_neg hu] at heq h
      dsimp only at h
      rw [subsz_of_le hle hsz] at h
      omega

theorem write_sh_pos (env : WEnv) (w : Hand) (data : List Nat)
    (hp : padsOkL w.bufferSize w.frameSize env.pads) (hd : data ≠ []) :
    (wasapi_write_sh env w data).1 ≠ some 0 := by
  have hdlen : data.length ≠ 0 := fun hh => hd (List.length_eq_zero.mp hh)
  unfold wasapi_write_sh WEnv.popWait WEnv.popPad WEnv.popFlush
  dsimp only
  repeat' split
  all_goals intro h
  all_goals dsimp only at h
  all_goals first
    | (exact Option.noConfusion h)
    | (rename_i hzero
       exact absurd hzero (hp _ (headD_mem_pads (by assumption)) _ rfl))
    | (rw [Option.some_inj] at h; omega)

theorem write_loop_le (env : WEnv) (w : Hand) (data : List Nat) (writen : Nat) :
    writen ≤ data.length →
    ((wasapi_write_loop env w data writen).1 = none ∨
     ∃ k, writen ≤ k ∧ k ≤ data.length ∧
       (wasapi_write_loop env w data writen).1 = some k) := by
  induction env, w, data, writen using wasapi_write_loop.induct with
  | case1 env w data writen h w1 env1 log1 hstep =>
    intro _
    rw [wasapi_write_loop, dif_pos h, hstep]
    exact Or.inl rfl
  | case2 env w data writen h w1 env1 log1 hstep =>
    intro hw
    rw [wasapi_write_loop, dif_pos h, hstep]
    exact Or.inr ⟨writen, le_refl _, hw, rfl⟩
  | case3 env w data writen h k w1 env1 log1 hstep ih =>
    intro hw
    rw [wasapi_write_loop, dif_pos h, hstep]
    have hk : k + 1 ≤ (data.drop writen).length :=
      write_step_le env w _ (k + 1) (by rw [hstep])
    rw [List.length_drop] at hk
    have hw1 : writen + (k + 1) ≤ data.length := by omega
    rcases ih hw1 with h1 | ⟨k2, hk2a, hk2b, hk2c⟩
    · exact Or.inl h1
    · exact Or.inr ⟨k2, by omega, hk2b, hk2c⟩
  | case4 env w data writen h =>
    intro hw
    rw [wasapi_write_loop, dif_neg h]
    exact Or.inr ⟨writen, le_refl _, hw, rfl⟩

theorem write_loop_ex (env : WEnv) (w : Hand) (data : List Nat) (writen : Nat) :
    w.blocking = true → w.hasBuffer = true → WInv w → 0 < w.bufferSize →
    writen ≤ data.length →
    ((wasapi_write_loop env w data writen).1 = none ∨
     (wasapi_write_loop env w data writen).1 = some data.length) := by
  induction env, w, data, writen using wasapi_write_loop.induct with
  | case1 env w data writen h w1 env1 log1 hstep =>
    intro _ _ _ _ _
    rw [wasapi_write_loop, dif_pos h, hstep]
    exact Or.inl rfl
  | case2 env w data writen h w1 env1 log1 hstep =>
    intro hb hbuf hinv hbs hw
    exfalso
    have hstep1 : (wasapi_write_step env w (data.drop writen)).1 = some 0 := by
      rw [hstep]
    have hd : data.drop writen ≠ [] := by
      intro hh
      have := congrArg List.length hh
      rw [List.length_drop] at this
      simp only [List.length_nil] at this
      omega
    unfold wasapi_write_step at hstep1
    rw [hbuf] at hstep1
    simp only [if_true] at hstep1
    exact write_ex_pos env w _ hb hinv hbs hd hstep1
  | case3 env w data writen h k w1 env1 log1 hstep ih =>
    intro hb hbuf hinv hbs hw
    rw [wasapi_write_loop, dif_pos h, hstep]
    have hcfg := write_step_hand env w (data.drop writen)
    rw [hstep] at hcfg
    obtain ⟨⟨hc1, hc2, hc3, hc4, hc5⟩, hci⟩ := hcfg
    have hk : k + 1 ≤ (data.drop writen).length :=
      write_step_le env w _ (k + 1) (by rw [hstep])
    rw [List.length_drop] at hk
    exact ih (hc4.trans hb) (hc1.trans hbuf) (hci hinv) (hc2 ▸ hbs) (by omega)
  | case4 env w data writen h =>
    intro _ _ _ _ hw
    rw [wasapi_write_loop, dif_neg h]
    have hwl : writen = data.length := by omega
    rw [hwl]
    exact Or.inr rfl

theorem write_loop_sh (env : WEnv) (w : Hand) (data : List Nat) (writen : Nat) :
    w.blocking = true → w.hasBuffer = false →
    padsOkL w.bufferSize w.frameSize env.pads →
    writen ≤ data.length →
    ((wasapi_write_loop env w data writen).1 = none ∨
     (wasapi_write_loop env w data writen).1 = some data.length) := by
  induction env, w, data, writen using wasapi_write_loop.induct with
  | case1 env w data writen h w1 env1 log1 hstep =>
    intro _ _ _ _
    rw [wasapi_write_loop, dif_pos h, hstep]
    exact Or.inl rfl
  | case2 env w data writen h w1 env1 log1 hstep =>
    intro hb hbuf hp hw
    exfalso
    have hsh : wasapi_write_step env w (data.drop writen)
        = wasapi_write_sh env w (data.drop writen) := by
      unfold wasapi_write_step
      rw [hbuf]
      simp
    rw [hsh] at hstep
    have hstep1 : (wasapi_write_sh env w (data.drop writen)).1 = some 0 := by
      rw [hstep]
    have hd : data.drop writen ≠ [] := by
      intro hh
      have := congrArg List.length hh
      rw [List.length_drop] at this
      simp only [List.length_nil] at this
      omega
    exact write_sh_pos env w _ hp hd hstep1
  | case3 env w data writen h k w1 env1 log1 hstep ih =>
    intro hb hbuf hp hw
    rw [wasapi_write_loop, dif_pos h, hstep]
    have hsh : wasapi_write_step env w (data.drop writen)
        = wasapi_write_sh env w (data.drop writen) := by
      unfold wasapi_write_step
      rw [hbuf]
      simp
    rw [hsh] at hstep
    have hw1 : w1 = w := by
      have := write_sh_hand env w (data.drop writen)
      rw [hstep] at this
      exact this
    subst hw1
    have hpads := write_sh_pads env w1 (data.drop writen)
    rw [hstep] at hpads
    have hk : k + 1 ≤ (data.drop writen).length := by
      have := write_sh_le env w1 (data.drop writen) (k + 1) (by rw [hstep])
      exact this
    rw [List.length_drop] at hk
    have hp1 : padsOkL w1.bufferSize w1.frameSize env1.pads := by
      rcases hpads with h1 | h1
      · rw [h1]; exact hp
      · rw [h1]; exact padsOkL_tail hp
    exact ih hb hbuf hp1 (by omega)
  | case4 env w data writen h =>
    intro _ _ _ hw
    rw [wasapi_write_loop, dif_neg h]
    have hwl : writen = data.length := by omega
    rw [hwl]
    exact Or.inr rfl

/-- C1 (amended): a blocking `wasapi_write` of `N` bytes returns `-1`
(modelled `none`) or a count `k ≤ N`.  In exclusive mode (nonzero buffer)
an early stop is impossible, so the result is `-1` or exactly `N`; the
same holds in shared mode as long as every event-gated availability query
reports nonzero free space.  A shared-mode iteration that reports zero
available space ends the loop early with the partial count. -/
theorem wasapi_write_blocking_cases (env : WEnv) (w : Hand) (data : List Nat)
    (hb : w.blocking = true) :
    ((wasapi_write env w data).1 = none ∨
      ∃ k, k ≤ data.length ∧ (wasapi_write env w data).1 = some k)
    ∧ (w.hasBuffer = true → WInv w → 0 < w.bufferSize →
        (wasapi_write env w data).1 = none ∨
        (wasapi_write env w data).1 = some data.length)
    ∧ (w.hasBuffer = false → padsOkL w.bufferSize w.frameSize env.pads →
        (wasapi_write env w data).1 = none ∨
        (wasapi_write env w data).1 = some data.length) := by
  unfold wasapi_write
  rw [hb]
  simp only [if_true]
  refine ⟨?_, ?_, ?_⟩
  · rcases write_loop_le env w data 0 (Nat.zero_le _) with h | ⟨k, _, hk2, hk3⟩
    · exact Or.inl h
    · exact Or.inr ⟨k, hk2, hk3⟩
  · intro h1 h2 h3
    exact write_loop_ex env w data 0 hb h1 h2 h3 (Nat.zero_le _)
  · intro h1 h2
    exact write_loop_sh env w data 0 hb h1 h2 (Nat.zero_le _)

theorem wasapi_write_blocking_cases_witness :
    (⟨false, [], 8, 0, 4, true, false⟩ : Hand).blocking = true ∧
    ((wasapi_write ⟨[WaitRes.obj0], [some 0], [true]⟩
        ⟨false, [], 8, 0, 4, true, false⟩ [7, 7, 7, 7]).1 = none ∨
      ∃ k, k ≤ ([7, 7, 7, 7] : List Nat).length ∧
        (wasapi_write ⟨[WaitRes.obj0], [some 0], [true]⟩
          ⟨false, [], 8, 0, 4, true, false⟩ [7, 7, 7, 7]).1 = some k) :=
  ⟨rfl,
   (wasapi_write_blocking_cases ⟨[WaitRes.obj0], [some 0], [true]⟩
      ⟨false, [], 8, 0, 4, true, false⟩ [7, 7, 7, 7] rfl).1⟩

/-- C1 counterexample: a blocking shared-mode write of 8 bytes into a
handle with `buffer_size = 8`, `frame_size = 4`, where the engine signals
the event each period but reports 1 pending frame before the first
iteration and 2 pending frames before the second, returns 4 — a final
value strictly between 0 and the requested 8 — because the second
iteration accepts 0 bytes and ends the loop. -/
theorem wasapi_write_blocking_partial_cex :
    (⟨false, [], 8, 0, 4, true, false⟩ : Hand).blocking = true ∧
    (wasapi_write ⟨[WaitRes.obj0, WaitRes.obj0], [some 1, some 2], [true]⟩
        ⟨false, [], 8, 0, 4, true, false⟩ [0, 0, 0, 0, 0, 0, 0, 0]).1 = some 4 ∧
    0 < 4 ∧ 4 < ([0, 0, 0, 0, 0, 0, 0, 0] : List Nat).length := by
  refine ⟨rfl, ?_, by norm_num, by norm_num⟩
  simp [wasapi_write, wasapi_write_loop, wasapi_write_step, wasapi_write_sh,
        WEnv.popWait, WEnv.popPad, WEnv.popFlush, subsz, SZ]

theorem findMatch_none (s : String) :
    ∀ slots : List EnumSlot,
      (∀ sl ∈ slots, ∀ dev ok, sl = EnumSlot.item dev s ok → ok = false) →
      findMatch s slots = none := by
  intro slots
  induction slots with
  | nil => intro _; rfl
  | cons a t ih =>
    intro hall
    cases a with
    | itemFail =>
      unfold findMatch
      exact ih fun sl hm => hall sl (List.mem_cons_of_mem _ hm)
    | item dev devId ok =>
      unfold findMatch
      by_cases hid : devId = s
      · subst hid
        have hok : ok = false := hall _ (List.mem_cons_self _ _) dev ok rfl
        subst hok
        simp only [Bool.false_and, Bool.false_eq_true, if_false]
        exact ih fun sl hm => hall sl (List.mem_cons_of_mem _ hm)
      · have : (devId == s) = false := beq_eq_false_iff_ne.mpr hid
        rw [this]
        simp only [Bool.and_false, Bool.false_eq_true, if_false]
        exact ih fun sl hm => hall sl (List.mem_cons_of_mem _ hm)

theorem findMatch_first (s : String) (d : Nat) :
    ∀ (pre rest : List EnumSlot),
      (∀ sl ∈ pre, ∀ dev ok, sl = EnumSlot.item dev s ok → ok = false) →
      findMatch s (pre ++ EnumSlot.item d s true :: rest) = some d := by
  intro pre
  induction pre with
  | nil =>
    intro rest _
    unfold findMatch
    simp
  | cons a t ih =>
    intro rest hall
    cases a with
    | itemFail =>
      rw [List.cons_append]
      unfold findMatch
      exact ih rest fun sl hm => hall sl (List.mem_cons_of_mem _ hm)
    | item dev devId ok =>
      rw [List.cons_append]
      unfold findMatch
      by_cases hid : devId = s
      · subst hid
        have hok : ok = false := hall _ (List.mem_cons_self _ _) dev ok rfl
        subst hok
        simp only [Bool.false_and, Bool.false_eq_true, if_false]
        exact ih rest fun sl hm => hall sl (List.mem_cons_of_mem _ hm)
      · have hbeq : (devId == s) = false := beq_eq_false_iff_ne.mpr hid
        rw [hbeq]
        simp only [Bool.and_false, Bool.false_eq_true, if_false]
        exact ih rest fun sl hm => hall sl (List.mem_cons_of_mem _ hm)

/-- C6: with no id, the resolver returns the platform default endpoint
(when obtainable); with an id that matches no enumerated active endpoint
exactly, it falls back to the default endpoint instead of failing; and
per-candidate errors (an `Item` failure or a failed id check) only skip
that candidate — the first exact match after them is still returned. -/
theorem device_resolver_fallback (o1 o2 : DevOracle) (s : String) (d : Nat) :
    (o1.coCreate = true → o1.defaultDev = some d →
      resolveDevice o1 o2 none = some d)
    ∧ ((∀ slots, o1.slots = some slots →
          ∀ sl ∈ slots, ∀ dev ok, sl = EnumSlot.item dev s ok → ok = false) →
        o2.coCreate = true → o2.defaultDev = some d →
        resolveDevice o1 o2 (some s) = some d)
    ∧ (∀ pre rest, o1.coCreate = true →
        o1.slots = some (pre ++ EnumSlot.item d s true :: rest) →
        (∀ sl ∈ pre, ∀ dev ok, sl = EnumSlot.item dev s ok → ok = false) →
        resolveDevice o1 o2 (some s) = some d) := by
  refine ⟨?_, ?_, ?_⟩
  · intro hc hd
    unfold resolveDevice wasapi_init_device
    rw [hc, hd]
    rfl
  · intro hall hc2 hd2
    have h1 : wasapi_init_device o1 (some s) = none := by
      unfold wasapi_init_device
      by_cases hc1 : o1.coCreate
      · rw [hc1]
        simp only [Bool.not_true, Bool.false_eq_true, if_false]
        cases hs : o1.slots with
        | none => rfl
        | some slots => exact findMatch_none s slots (hall slots hs)
      · simp only [Bool.not_eq_true] at hc1
        rw [hc1]
        rfl
    unfold resolveDevice
    rw [h1]
    unfold wasapi_init_device
    rw [hc2, hd2]
    rfl
  · intro pre rest hc1 hs hall
    have h1 : wasapi_init_device o1 (some s) = some d := by
      unfold wasapi_init_device
      rw [hc1, hs]
      simp only [Bool.not_true, Bool.false_eq_true, if_false]
      exact findMatch_first s d pre rest hall
    unfold resolveDevice
    rw [h1]

theorem device_resolver_fallback_witness :
    resolveDevice ⟨true, some [], none⟩ ⟨true, none, some 5⟩
        (some "nonexistent-id") = some 5
    ∧ resolveDevice ⟨true, none, some 3⟩ ⟨false, none, none⟩ none = some 3
    ∧ resolveDevice
        ⟨true, some [EnumSlot.itemFail, EnumSlot.item 9 "a" false,
                     EnumSlot.item 7 "a" true], none⟩
        ⟨false, none, none⟩ (some "a") = some 7 :=
  ⟨(device_resolver_fallback ⟨true, some [], none⟩ ⟨true, none, some 5⟩
      "nonexistent-id" 5).2.1 (by intro slots hs; cases hs; intro sl hm; cases hm)
      rfl rfl,
   (device_resolver_fallback ⟨true, none, some 3⟩ ⟨false, none, none⟩ "x" 3).1
      rfl rfl,
   (device_resolver_fallback
      ⟨true, some [EnumSlot.itemFail, EnumSlot.item 9 "a" false,
                   EnumSlot.item 7 "a" true], none⟩
      ⟨false, none, none⟩ "a" 7).2.2
      [EnumSlot.itemFail, EnumSlot.item 9 "a" false] [] rfl rfl
      (by
        intro sl hm dev ok he
        subst he
        simp only [List.mem_cons, List.not_mem_nil, or_false] at hm
        rcases hm with h | h
        · cases h
        · cases h
          rfl)⟩

/-- C3: negotiation attempts the caller's preferred mode first; the other
mode is attempted exactly when the whole preferred attempt fails, in which
case the returned exclusive flag is flipped to the mode that succeeded;
when both attempts fail negotiation returns failure (NULL client) — stated
for both possible preferred modes. -/
theorem init_client_mode_fallback (env : NegEnv) (flt : Bool) (rReq : Nat) :
    (((wasapi_init_client env true flt rReq).1 = none ↔
        ((wasapi_init_client_ex env flt rReq).1 = none ∧
         (wasapi_init_client_sh (wasapi_init_client_ex env flt rReq).2.1
            flt rReq).1 = none))
     ∧ (∀ c, (wasapi_init_client_ex env flt rReq).1 = some c →
          (wasapi_init_client env true flt rReq).1 = some c ∧
          (wasapi_init_client env true flt rReq).2.1 = true)
     ∧ (∀ c, (wasapi_init_client_ex env flt rReq).1 = none →
          (wasapi_init_client_sh (wasapi_init_client_ex env flt rReq).2.1
             flt rReq).1 = some c →
          (wasapi_init_client env true flt rReq).1 = some c ∧
          (wasapi_init_client env true flt rReq).2.1 = false))
    ∧ (((wasapi_init_client env false flt rReq).1 = none ↔
        ((wasapi_init_client_sh env flt rReq).1 = none ∧
         (wasapi_init_client_ex (wasapi_init_client_sh env flt rReq).2.1
            flt rReq).1 = none))
     ∧ (∀ c, (wasapi_init_client_sh env flt rReq).1 = some c →
          (wasapi_init_client env false flt rReq).1 = some c ∧
          (wasapi_init_client env false flt rReq).2.1 = false)
     ∧ (∀ c, (wasapi_init_client_sh env flt rReq).1 = none →
          (wasapi_init_client_ex (wasapi_init_client_sh env flt rReq).2.1
             flt rReq).1 = some c →
          (wasapi_init_client env false flt rReq).1 = some c ∧
          (wasapi_init_client env false flt rReq).2.1 = true)) := by
  constructor
  · rcases hx : wasapi_init_client_ex env flt rReq with ⟨xr, envx, trx⟩
    cases xr with
    | some c0 =>
      refine ⟨?_, ?_, ?_⟩
      · simp [wasapi_init_client, hx]
      · intro c hc
        simp only [Option.some.injEq] at hc
        subst hc
        simp [wasapi_init_client, hx]
      · intro c hc
        cases hc
    | none =>
      rcases hs : wasapi_init_client_sh envx flt rReq with ⟨sr, envs, trs⟩
      cases sr with
      | some c1 =>
        refine ⟨?_, ?_, ?_⟩
        · simp [wasapi_init_client, hx, hs]
        · intro c hc; cases hc
        · intro c _ hc
          simp only [hs] at hc
          simp only [Option.some.injEq] at hc
          subst hc
          simp [wasapi_init_client, hx, hs]
      | none =>
        refine ⟨?_, ?_, ?_⟩
        · simp [wasapi_init_client, hx, hs]
        · intro c hc; cases hc
        · intro c _ hc
          simp only [hs] at hc
          cases hc
  · rcases hx : wasapi_init_client_sh env flt rReq with ⟨xr, envx, trx⟩
    cases xr with
    | some c0 =>
      refine ⟨?_, ?_, ?_⟩
      · simp [wasapi_init_client, hx]
      · intro c hc
        simp only [Option.some.injEq] at hc
        subst hc
        simp [wasapi_init_client, hx]
      · intro c hc
        cases hc
    | none =>
      rcases hs : wasapi_init_client_ex envx flt rReq with ⟨sr, envs, trs⟩
      cases sr with
      | some c1 =>
        refine ⟨?_, ?_, ?_⟩
        · simp [wasapi_init_client, hx, hs]
        · intro c hc; cases hc
        · intro c _ hc
          simp only [hs] at hc
          simp only [Option.some.injEq] at hc
          subst hc
          simp [wasapi_init_client, hx, hs]
      | none =>
        refine ⟨?_, ?_, ?_⟩
        · simp [wasapi_init_client, hx, hs]
        · intro c hc; cases hc
        · intro c _ hc
          simp only [hs] at hc
          cases hc

theorem init_client_mode_fallback_witness :
    (wasapi_init_client ⟨[true, true], [false], [], [InitResp.ok]⟩
        true false 44100).1 = some (false, 44100)
    ∧ (wasapi_init_client ⟨[true, true], [false], [], [InitResp.ok]⟩
        true false 44100).2.1 = false :=
  (init_client_mode_fallback ⟨[true, true], [false], [], [InitResp.ok]⟩
      false 44100).1.2.2 (false, 44100) (by decide) (by decide)

theorem filter_ne_cons {a rReq : Nat} {l : List Nat} (h : a ≠ rReq) :
    (a :: l).filter (fun x => x ≠ rReq) = a :: l.filter (fun x => x ≠ rReq) := by
  simp [List.filter_cons, h]

theorem filter_eq_cons {rReq : Nat} {l : List Nat} :
    (rReq :: l).filter (fun x => x ≠ rReq) = l.filter (fun x => x ≠ rReq) := by
  simp [List.filter_cons]

theorem restRates_big (rReq : Nat) (n : Nat) : restRates rReq (n + 4) = [] := by
  unfold restRates specPrefRates
  rw [List.drop_eq_nil_of_le (by simp)]
  rfl

theorem pref_rate_big (n : Nat) : wasapi_pref_rate (n + 4) = 0 := by
  unfold wasapi_pref_rate
  rw [List.getD_eq_default]
  simp

theorem restRates_len (rReq j : Nat) : (restRates rReq j).length ≤ 4 := by
  unfold restRates specPrefRates
  have h1 := List.length_filter_le (fun x => decide (x ≠ rReq))
    (([48000, 44100, 96000, 192000] : List Nat).drop j)
  have h2 : (([48000, 44100, 96000, 192000] : List Nat).drop j).length ≤ 4 := by
    rw [List.length_drop]
    simp
  omega

theorem restRates_step (rReq : Nat) (hr : rReq ≠ 0) (j : Nat) :
    (wasapi_pref_rate j = rReq →
       ((wasapi_pref_rate (j + 1) = 0 ∧ restRates rReq j = []) ∨
        (wasapi_pref_rate (j + 1) ≠ 0 ∧
         restRates rReq j = wasapi_pref_rate (j + 1) :: restRates rReq (j + 2))))
    ∧ (wasapi_pref_rate j ≠ rReq →
       ((wasapi_pref_rate j = 0 ∧ restRates rReq j = []) ∨
        (wasapi_pref_rate j ≠ 0 ∧
         restRates rReq j = wasapi_pref_rate j :: restRates rReq (j + 1)))) := by
  rcases j with _ | _ | _ | _ | n
  · constructor
    · intro h
      rw [show wasapi_pref_rate 0 = 48000 from rfl] at h
      subst h
      right
      exact ⟨by decide, by decide⟩
    · intro h
      rw [show wasapi_pref_rate 0 = 48000 from rfl] at h
      right
      refine ⟨by decide, ?_⟩
      show ([48000, 44100, 96000, 192000] : List Nat).filter _
          = wasapi_pref_rate 0 :: restRates rReq 1
      rw [filter_ne_cons h]
      rfl
  · constructor
    · intro h
      rw [show wasapi_pref_rate 1 = 44100 from rfl] at h
      subst h
      right
      exact ⟨by decide, by decide⟩
    · intro h
      rw [show wasapi_pref_rate 1 = 44100 from rfl] at h
      right
      refine ⟨by decide, ?_⟩
      show ([44100, 96000, 192000] : List Nat).filter _
          = wasapi_pref_rate 1 :: restRates rReq 2
      rw [filter_ne_cons h]
      rfl
  · constructor
    · intro h
      rw [show wasapi_pref_rate 2 = 96000 from rfl] at h
      subst h
      right
      exact ⟨by decide, by decide⟩
    · intro h
      rw [show wasapi_pref_rate 2 = 96000 from rfl] at h
      right
      refine ⟨by decide, ?_⟩
      show ([96000, 192000] : List Nat).filter _
          = wasapi_pref_rate 2 :: restRates rReq 3
      rw [filter_ne_cons h]
      rfl
  · constructor
    · intro h
      rw [show wasapi_pref_rate 3 = 192000 from rfl] at h
      subst h
      left
      exact ⟨by decide, by decide⟩
    · intro h
      rw [show wasapi_pref_rate 3 = 192000 from rfl] at h
      right
      refine ⟨by decide, ?_⟩
      show ([192000] : List Nat).filter _
          = wasapi_pref_rate 3 :: restRates rReq 4
      rw [filter_ne_cons h]
      rfl
  · constructor
    · intro h
      rw [pref_rate_big] at h
      exact absurd h.symm hr
    · intro _
      left
      exact ⟨pref_rate_big n, restRates_big rReq n⟩

theorem innerLoop_zero
    (body : Bool → Nat → NegEnv → List ICall → BodyOut × NegEnv × List ICall)
    (rReq : Nat) (f : Bool) (fuel j : Nat) (hr : InitResp) (env : NegEnv)
    (tr : List ICall) :
    innerLoop body rReq f fuel j 0 hr env tr = (.exhausted hr, env, tr) := by
  cases fuel <;> rfl

theorem innerLoop_eq_walk
    (body : Bool → Nat → NegEnv → List ICall → BodyOut × NegEnv × List ICall)
    (rReq : Nat) (hrq : rReq ≠ 0) (f : Bool) :
    ∀ (fuel j rate : Nat) (hr : InitResp) (env : NegEnv) (tr : List ICall),
      rate ≠ 0 → (restRates rReq j).length < fuel →
      innerLoop body rReq f fuel j rate hr env tr
        = walkBody body f (rate :: restRates rReq j) hr env tr := by
  intro fuel
  induction fuel with
  | zero =>
    intro j rate hr env tr h1 h2
    omega
  | succ n ih =>
    intro j rate hr env tr hrate hlen
    simp only [innerLoop, walkBody]
    rw [if_neg hrate]
    rcases hb : body f rate env tr with ⟨bo, env1, tr1⟩
    cases bo with
    | fatal => rfl
    | broke hr1 => rfl
    | unsupp =>
      dsimp only
      by_cases hpe : wasapi_pref_rate j = rReq
      · rw [if_pos hpe]
        dsimp only
        rcases (restRates_step rReq hrq j).1 hpe with ⟨hz, hres⟩ | ⟨hnz, hres⟩
        · rw [hres, hz, innerLoop_zero]
          rfl
        · rw [hres]
          have hlen2 : (restRates rReq (j + 2)).length < n := by
            rw [hres] at hlen
            simp only [List.length_cons] at hlen
            omega
          exact ih (j + 2) _ .unsupported env1 tr1 hnz hlen2
      · rw [if_neg hpe]
        dsimp only
        rcases (restRates_step rReq hrq j).2 hpe with ⟨hz, hres⟩ | ⟨hnz, hres⟩
        · rw [hres, hz, innerLoop_zero]
          rfl
        · rw [hres]
          have hlen2 : (restRates rReq (j + 1)).length < n := by
            rw [hres] at hlen
            simp only [List.length_cons] at hlen
            omega
          exact ih (j + 1) _ .unsupported env1 tr1 hnz hlen2

theorem specRateOrder_eq (rReq : Nat) :
    specRateOrder rReq = rReq :: restRates rReq 0 := by
  unfold specRateOrder restRates
  rfl

theorem clientLoop_eq_walk
    (body : Bool → Nat → NegEnv → List ICall → BodyOut × NegEnv × List ICall)
    (env : NegEnv) (flt : Bool) (rReq : Nat) (hrq : rReq ≠ 0) :
    clientLoop body env flt rReq =
      (match walkBody body flt (specRateOrder rReq) .ok env [] with
       | (.fatal, env1, tr1) => (none, env1, tr1)
       | (.broke hr rate, env1, tr1) =>
         (if hr = .ok then some (flt, rate) else none, env1, tr1)
       | (.exhausted hr1, env1, tr1) =>
         match walkBody body (!flt) (specRateOrder rReq) hr1 env1 tr1 with
         | (.fatal, env2, tr2) => (none, env2, tr2)
         | (.broke hr rate, env2, tr2) =>
           (if hr = .ok then some (!flt, rate) else none, env2, tr2)
         | (.exhausted hr2, env2, tr2) =>
           (if hr2 = .ok then some (!flt, 0) else none, env2, tr2)) := by
  unfold clientLoop
  rw [specRateOrder_eq]
  rw [← innerLoop_eq_walk body rReq hrq flt 8 0 rReq .ok env [] hrq
        (by have := restRates_len rReq 0; omega)]
  rcases h1 : innerLoop body rReq flt 8 0 rReq .ok env [] with ⟨o1, env1, tr1⟩
  cases o1 with
  | fatal => rfl
  | broke hr rate => rfl
  | exhausted hr1 =>
    dsimp only
    rw [← innerLoop_eq_walk body rReq hrq (!flt) 8 0 rReq hr1 env1 tr1 hrq
          (by have := restRates_len rReq 0; omega)]

/-- Modelled from the spec: the engine answer that ended the candidate
walk — `none` when every candidate was answered unsupported-format and the
candidate list ran out. -/
def specStop : List (Bool × Nat) → List InitResp → Option InitResp
  | [], _ => none
  | _ :: _, [] => some .otherFail
  | _ :: cs, r :: rs => if r = .unsupported then specStop cs rs else some r

/-- Outcome of the shared-mode loop body on one candidate, as a function of
the engine's `Initialize` answer (valid when the answer is not
`ALREADY_INITIALIZED`, which consumes further oracle entries). -/
def stepOutSh (s : InitResp) : BodyOut :=
  if s = .unsupported then .unsupp else .broke s

/-- Outcome of the exclusive-mode loop body on one candidate, as a function
of the engine's `Initialize` answer (valid when the answer is neither
`BUFFER_SIZE_NOT_ALIGNED` nor `ALREADY_INITIALIZED`). -/
def stepOutEx (s : InitResp) : BodyOut :=
  if s = .unsupported then .unsupp
  else if s = .inUse then .fatal
  else if s = .notAllowed then .fatal
  else .broke s

theorem headD_ne {l : List InitResp} {a : InitResp}
    (h : ∀ x ∈ l, x ≠ a) (ha : InitResp.otherFail ≠ a) :
    l.headD .otherFail ≠ a := by
  cases l with
  | nil => exact ha
  | cons b t =>
    rw [List.headD_cons]
    exact h b (List.mem_cons_self _ _)

theorem shBody_simple (f : Bool) (rate : Nat) (env : NegEnv) (tr : List ICall)
    (h : ∀ x ∈ env.inits, x ≠ InitResp.alreadyInit) :
    shBody f rate env tr
      = (stepOutSh (env.inits.headD .otherFail),
         ⟨env.activates, env.periods, env.bufSizes, env.inits.tail⟩,
         tr ++ [⟨true, f, rate⟩]) := by
  cases hi : env.inits with
  | nil =>
    unfold shBody NegEnv.popInit stepOutSh stepBreak
    rw [hi]
    rfl
  | cons a t =>
    have ha : a ≠ InitResp.alreadyInit :=
      h a (hi ▸ List.mem_cons_self a t)
    unfold shBody NegEnv.popInit stepOutSh stepBreak
    rw [hi]
    dsimp only [List.headD_cons, List.tail_cons]
    rw [if_neg ha]
    by_cases hu : a = InitResp.unsupported
    · subst hu; rfl
    · rw [if_neg hu, if_neg hu]

theorem exBody_simple (f : Bool) (rate : Nat) (env : NegEnv) (tr : List ICall)
    (h : ∀ x ∈ env.inits,
      x ≠ InitResp.notAligned ∧ x ≠ InitResp.alreadyInit) :
    exBody f rate env tr
      = (stepOutEx (env.inits.headD .otherFail),
         ⟨env.activates, env.periods, env.bufSizes, env.inits.tail⟩,
         tr ++ [⟨false, f, rate⟩]) := by
  cases hi : env.inits with
  | nil =>
    unfold exBody NegEnv.popInit exAligned exShFallback exFinish stepOutEx
    rw [hi]
    rfl
  | cons a t =>
    have ha : a ≠ InitResp.notAligned :=
      (h a (hi ▸ List.mem_cons_self a t)).1
    have hb : a ≠ InitResp.alreadyInit :=
      (h a (hi ▸ List.mem_cons_self a t)).2
    unfold exBody NegEnv.popInit exAligned exShFallback exFinish stepOutEx
    rw [hi]
    dsimp only [List.headD_cons, List.tail_cons]
    rw [if_neg ha, if_neg hb]
    by_cases hu : a = InitResp.unsupported
    · subst hu; rfl
    · rw [if_neg hu, if_neg hu]
      by_cases hiu : a = InitResp.inUse
      · subst hiu; rfl
      · rw [if_neg hiu, if_neg hiu]
        by_cases hnal : a = InitResp.notAllowed
        · subst hnal; rfl
        · rw [if_neg hnal, if_neg hnal]

theorem specTry_ne_nil (c : Bool × Nat) (cs : List (Bool × Nat))
    (rs : List InitResp) : (specTry (c :: cs) rs).2 ≠ [] := by
  unfold specTry
  cases rs with
  | nil => simp
  | cons r rs1 =>
    by_cases h1 : r = InitResp.ok
    · simp [h1]
    · by_cases h2 : r = InitResp.unsupported <;> simp [h1, h2]

theorem specStop_some_ne_nil {cs : List (Bool × Nat)} {rs : List InitResp}
    {s : InitResp} (h : specStop cs rs = some s) : cs ≠ [] := by
  intro hc
  subst hc
  unfold specStop at h
  cases h

theorem getLastD_irrel {α : Type} {l : List α} (h : l ≠ []) (a b : α) :
    l.getLastD a = l.getLastD b := by
  cases l with
  | nil => exact absurd rfl h
  | cons x t => rw [List.getLastD_cons, List.getLastD_cons]

theorem specTry_stop2 (c : Bool × Nat) (cs : List (Bool × Nat))
    (r : InitResp) (rs : List InitResp) (h : r ≠ InitResp.unsupported) :
    (specTry (c :: cs) (r :: rs)).2 = [c] := by
  unfold specTry
  by_cases h1 : r = InitResp.ok <;> simp [h1, h]

theorem specTry_unsupp (c : Bool × Nat) (cs : List (Bool × Nat))
    (rs : List InitResp) :
    specTry (c :: cs) (InitResp.unsupported :: rs)
      = ((specTry cs rs).1, c :: (specTry cs rs).2) := by
  cases cs with
  | nil => cases rs <;> rfl
  | cons c2 cs2 =>
    conv_lhs => unfold specTry
    simp

theorem specStop_unsupp (c : Bool × Nat) (cs : List (Bool × Nat))
    (rs : List InitResp) :
    specStop (c :: cs) (InitResp.unsupported :: rs) = specStop cs rs := by
  conv_lhs => unfold specStop
  simp

theorem specStop_stop (c : Bool × Nat) (cs : List (Bool × Nat))
    (r : InitResp) (rs : List InitResp) (h : r ≠ InitResp.unsupported) :
    specStop (c :: cs) (r :: rs) = some r := by
  conv_lhs => unfold specStop
  simp [h]

theorem walk_master (sh f : Bool) (P : InitResp → Prop)
    (stepOut : InitResp → BodyOut)
    (B : Bool → Nat → NegEnv → List ICall → BodyOut × NegEnv × List ICall)
    (hB : ∀ rate env tr, (∀ x ∈ env.inits, P x) →
        B f rate env tr
          = (stepOut (env.inits.headD .otherFail),
             ⟨env.activates, env.periods, env.bufSizes, env.inits.tail⟩,
             tr ++ [⟨sh, f, rate⟩]))
    (hUn : ∀ s, stepOut s = BodyOut.unsupp ↔ s = InitResp.unsupported) :
    ∀ (rates : List Nat) (hr : InitResp) (env : NegEnv) (tr : List ICall),
      (∀ x ∈ env.inits, P x) →
      walkBody B f rates hr env tr
        = ((match specStop (rates.map fun x => (f, x)) env.inits with
            | none => InnerOut.exhausted
                (match rates with
                 | [] => hr
                 | _ :: _ => InitResp.unsupported)
            | some s =>
              match stepOut s with
              | .broke h1 => InnerOut.broke h1
                  ((specTry (rates.map fun x => (f, x)) env.inits).2.getLastD
                    (f, 0)).2
              | _ => InnerOut.fatal),
           ⟨env.activates, env.periods, env.bufSizes,
            env.inits.drop
              (specTry (rates.map fun x => (f, x)) env.inits).2.length⟩,
           tr ++ (specTry (rates.map fun x => (f, x)) env.inits).2.map
             (fun c => (⟨sh, c.1, c.2⟩ : ICall))) := by
  intro rates
  induction rates with
  | nil =>
    intro hr env tr hresp
    simp only [walkBody, List.map_nil]
    unfold specStop specTry
    simp
  | cons rate rest ih =>
    intro hr env tr hresp
    simp only [walkBody, List.map_cons]
    rw [hB rate env tr hresp]
    cases hi : env.inits with
    | nil =>
      cases hso : stepOut InitResp.otherFail with
      | unsupp => exact absurd ((hUn _).mp hso) (by decide)
      | fatal =>
        simp only [List.headD_nil, hso]
        unfold specStop specTry
        simp [hso]
      | broke h1 =>
        simp only [List.headD_nil, hso]
        unfold specStop specTry
        simp [hso]
    | cons i irest =>
      have hPmem : ∀ x ∈ irest, P x := by
        intro x hx
        apply hresp
        rw [hi]
        exact List.mem_cons_of_mem _ hx
      dsimp only [List.headD_cons, List.tail_cons]
      by_cases hiu : i = InitResp.unsupported
      · subst hiu
        have hs : stepOut InitResp.unsupported = BodyOut.unsupp := (hUn _).mpr rfl
        rw [hs]
        dsimp only
        refine (ih InitResp.unsupported
              ⟨env.activates, env.periods, env.bufSizes, irest⟩
              (tr ++ [⟨sh, f, rate⟩]) hPmem).trans ?_
        rw [specStop_unsupp, specTry_unsupp]
        simp only [Prod.mk.injEq]
        refine ⟨?_, ?_, ?_⟩
        · cases hss : specStop (rest.map fun x => (f, x)) irest with
          | none =>
            cases rest <;> rfl
          | some s =>
            dsimp only
            cases hstep : stepOut s with
            | fatal => rfl
            | unsupp => rfl
            | broke h1 =>
              have hne : (rest.map fun x => (f, x)) ≠ [] :=
                specStop_some_ne_nil hss
              have h2 : (specTry (rest.map fun x => (f, x)) irest).2 ≠ [] := by
                cases hrm : rest.map fun x => (f, x) with
                | nil => exact absurd hrm hne
                | cons c2 cs2 =>
                  rw [← hrm]
                  rw [hrm]
                  exact specTry_ne_nil c2 cs2 irest
              dsimp only
              rw [List.getLastD_cons, getLastD_irrel h2 (f, 0) (f, rate)]
        · simp
        · simp
      · cases hso : stepOut i with
        | unsupp => exact absurd ((hUn _).mp hso) hiu
        | fatal =>
          rw [specStop_stop _ _ _ _ hiu, specTry_stop2 _ _ _ _ hiu]
          dsimp only
          rw [hso]
          simp
        | broke h1 =>
          rw [specStop_stop _ _ _ _ hiu, specTry_stop2 _ _ _ _ hiu]
          dsimp only
          rw [hso]
          simp

theorem specStop_some_append :
    ∀ (cs1 cs2 : List (Bool × Nat)) (rs : List InitResp) (s : InitResp),
      specStop cs1 rs = some s →
      specTry (cs1 ++ cs2) rs = specTry cs1 rs ∧
      specStop (cs1 ++ cs2) rs = some s := by
  intro cs1
  induction cs1 with
  | nil =>
    intro cs2 rs s h
    cases h
  | cons c cs1t ih =>
    intro cs2 rs s h
    cases rs with
    | nil =>
      unfold specStop at h
      refine ⟨rfl, ?_⟩
      rw [← h]
      rfl
    | cons rr rs1 =>
      by_cases hu : rr = InitResp.unsupported
      · subst hu
        rw [specStop_unsupp] at h
        rw [List.cons_append, specStop_unsupp, specTry_unsupp, specTry_unsupp]
        obtain ⟨h1, h2⟩ := ih cs2 rs1 s h
        rw [h1, h2]
        exact ⟨rfl, rfl⟩
      · rw [specStop_stop _ _ _ _ hu] at h
        rw [List.cons_append, specStop_stop _ _ _ _ hu]
        refine ⟨?_, h⟩
        unfold specTry
        by_cases ho : rr = InitResp.ok <;> simp [ho, hu]

theorem specStop_none_append :
    ∀ (cs1 cs2 : List (Bool × Nat)) (rs : List InitResp),
      specStop cs1 rs = none →
      specTry (cs1 ++ cs2) rs
        = ((specTry cs2 (rs.drop cs1.length)).1,
           cs1 ++ (specTry cs2 (rs.drop cs1.length)).2) ∧
      specStop (cs1 ++ cs2) rs = specStop cs2 (rs.drop cs1.length) ∧
      (specTry cs1 rs).2 = cs1 ∧ (specTry cs1 rs).1 = none := by
  intro cs1
  induction cs1 with
  | nil =>
    intro cs2 rs h
    refine ⟨?_, rfl, rfl, rfl⟩
    rw [List.nil_append, List.length_nil, List.drop_zero, List.nil_append]
  | cons c cs1t ih =>
    intro cs2 rs h
    cases rs with
    | nil =>
      unfold specStop at h
      cases h
    | cons rr rs1 =>
      by_cases hu : rr = InitResp.unsupported
      · subst hu
        rw [specStop_unsupp] at h
        obtain ⟨h1, h2, h3, h4⟩ := ih cs2 rs1 h
        rw [List.cons_append, specStop_unsupp, specTry_unsupp, specTry_unsupp]
        rw [h1, h2, h3, h4]
        refine ⟨?_, rfl, rfl, rfl⟩
        rfl
      · rw [specStop_stop _ _ _ _ hu] at h
        cases h

theorem specStop_ok_try :
    ∀ (cs : List (Bool × Nat)) (rs : List InitResp) (d : Bool × Nat),
      specStop cs rs = some InitResp.ok →
      (specTry cs rs).1 = some ((specTry cs rs).2.getLastD d) := by
  intro cs
  induction cs with
  | nil => intro rs d h; cases h
  | cons c cst ih =>
    intro rs d h
    cases rs with
    | nil =>
      unfold specStop at h
      cases h
    | cons rr rs1 =>
      by_cases hu : rr = InitResp.unsupported
      · subst hu
        rw [specStop_unsupp] at h
        rw [specTry_unsupp]
        dsimp only
        have h2 : (specTry cst rs1).2 ≠ [] := by
          have hne := specStop_some_ne_nil h
          cases hcs : cst with
          | nil => exact absurd hcs hne
          | cons c2 cs2 => exact specTry_ne_nil c2 cs2 rs1
        rw [List.getLastD_cons, getLastD_irrel h2 c d]
        exact ih rs1 d h
      · rw [specStop_stop _ _ _ _ hu] at h
        have ho : rr = InitResp.ok := by
          injection h with h1
        subst ho
        unfold specTry
        simp

theorem specStop_fail_try :
    ∀ (cs : List (Bool × Nat)) (rs : List InitResp) (s : InitResp),
      specStop cs rs = some s → s ≠ InitResp.ok →
      (specTry cs rs).1 = none := by
  intro cs
  induction cs with
  | nil => intro rs s h _; cases h
  | cons c cst ih =>
    intro rs s h hs
    cases rs with
    | nil => rfl
    | cons rr rs1 =>
      by_cases hu : rr = InitResp.unsupported
      · subst hu
        rw [specStop_unsupp] at h
        rw [specTry_unsupp]
        exact ih rs1 s h hs
      · rw [specStop_stop _ _ _ _ hu] at h
        have hrr : rr = s := by injection h
        subst hrr
        unfold specTry
        simp [hu, hs]

theorem specTry_subset :
    ∀ (cs : List (Bool × Nat)) (rs : List InitResp) (c : Bool × Nat),
      c ∈ (specTry cs rs).2 → c ∈ cs := by
  intro cs
  induction cs with
  | nil =>
    intro rs c h
    unfold specTry at h
    simp at h
  | cons c0 cst ih =>
    intro rs c h
    cases rs with
    | nil =>
      unfold specTry at h
      simp at h
      rw [h]
      exact List.mem_cons_self _ _
    | cons rr rs1 =>
      by_cases hu : rr = InitResp.unsupported
      · subst hu
        rw [specTry_unsupp] at h
        dsimp only at h
        rcases List.mem_cons.mp h with h1 | h1
        · rw [h1]; exact List.mem_cons_self _ _
        · exact List.mem_cons_of_mem _ (ih rs1 c h1)
      · rw [specTry_stop2 _ _ _ _ hu] at h
        simp at h
        rw [h]
        exact List.mem_cons_self _ _

theorem specStop_ne_unsupp :
    ∀ (cs : List (Bool × Nat)) (rs : List InitResp),
      specStop cs rs ≠ some InitResp.unsupported := by
  intro cs
  induction cs with
  | nil => intro rs h; cases h
  | cons c cst ih =>
    intro rs h
    cases rs with
    | nil =>
      unfold specStop at h
      cases h
    | cons rr rs1 =>
      by_cases hu : rr = InitResp.unsupported
      · subst hu
        rw [specStop_unsupp] at h
        exact ih rs1 h
      · rw [specStop_stop _ _ _ _ hu] at h
        exact hu (by injection h)

theorem mem_map_fst {f : Bool} {l : List Nat} {c : Bool × Nat}
    (h : c ∈ l.map fun x => (f, x)) : c.1 = f := by
  rcases List.mem_map.mp h with ⟨x, _, hx⟩
  rw [← hx]

theorem map_proj_icall (sh : Bool) (l : List (Bool × Nat)) :
    (l.map fun c => (⟨sh, c.1, c.2⟩ : ICall)).map (fun ic => (ic.flt, ic.rate))
      = l := by
  rw [List.map_map]
  have : ((fun ic : ICall => (ic.flt, ic.rate)) ∘
      fun c : Bool × Nat => (⟨sh, c.1, c.2⟩ : ICall)) = id := by
    funext c
    rfl
  rw [this, List.map_id]

theorem getLastD_mem {α : Type} : ∀ (l : List α), l ≠ [] → ∀ d, l.getLastD d ∈ l := by
  intro l
  induction l with
  | nil => intro h; exact absurd rfl h
  | cons a t ih =>
    intro _ d
    rw [List.getLastD_cons]
    cases ht : t with
    | nil =>
      exact List.mem_cons_self _ _
    | cons b t2 =>
      have h2 := ih (by rw [ht]; exact List.cons_ne_nil _ _) a
      rw [ht] at h2
      exact List.mem_cons_of_mem _ h2

/-- Master composition: under a uniform body (one oracle answer per
candidate, no retry answers in the oracle), the whole two-pass float/rate
loop returns exactly what the spec's candidate walk returns, and the calls
it makes project to exactly the candidates the walk tries, in order. -/
theorem clientLoop_specTry (sh f : Bool) (P : InitResp → Prop)
    (stepOut : InitResp → BodyOut)
    (B : Bool → Nat → NegEnv → List ICall → BodyOut × NegEnv × List ICall)
    (hB : ∀ (f1 : Bool) (rate : Nat) (env : NegEnv) (tr : List ICall),
        (∀ x ∈ env.inits, P x) →
        B f1 rate env tr
          = (stepOut (env.inits.headD .otherFail),
             ⟨env.activates, env.periods, env.bufSizes, env.inits.tail⟩,
             tr ++ [⟨sh, f1, rate⟩]))
    (hUn : ∀ s, stepOut s = BodyOut.unsupp ↔ s = InitResp.unsupported)
    (hOk : ∀ s, stepOut s = BodyOut.broke InitResp.ok ↔ s = InitResp.ok)
    (r : Nat) (hr0 : r ≠ 0) (env : NegEnv)
    (hresp : ∀ x ∈ env.inits, P x) :
    (clientLoop B env f r).1 = (specTry (specCandidates f r) env.inits).1 ∧
    (clientLoop B env f r).2.2.map (fun ic => (ic.flt, ic.rate))
      = (specTry (specCandidates f r) env.inits).2 := by
  have hcand : specCandidates f r
      = ((specRateOrder r).map fun x => (f, x))
        ++ ((specRateOrder r).map fun x => (!f, x)) := rfl
  rw [clientLoop_eq_walk B env f r hr0,
      walk_master sh f P stepOut B (hB f) hUn (specRateOrder r) .ok env [] hresp,
      hcand]
  cases hss : specStop ((specRateOrder r).map fun x => (f, x)) env.inits with
  | some s =>
    obtain ⟨hA1, _⟩ := specStop_some_append
      ((specRateOrder r).map fun x => (f, x))
      ((specRateOrder r).map fun x => (!f, x)) env.inits s hss
    rw [hA1]
    dsimp only
    cases hstep : stepOut s with
    | unsupp =>
      have hsu : s = InitResp.unsupported := (hUn s).mp hstep
      rw [hsu] at hss
      exact absurd hss (specStop_ne_unsupp _ _)
    | fatal =>
      have hsne : s ≠ InitResp.ok := by
        intro hse
        rw [hse, (hOk InitResp.ok).mpr rfl] at hstep
        cases hstep
      dsimp only
      constructor
      · rw [specStop_fail_try _ env.inits s hss hsne]
      · rw [List.nil_append, map_proj_icall]
    | broke h1 =>
      dsimp only
      by_cases hok : h1 = InitResp.ok
      · subst hok
        have hs : s = InitResp.ok := (hOk s).mp hstep
        rw [hs] at hss
        rw [if_pos rfl]
        constructor
        · rw [specStop_ok_try _ env.inits ((f : Bool), (0 : Nat)) hss]
          have hne1 : ((specRateOrder r).map fun x => (f, x)) ≠ [] :=
            specStop_some_ne_nil hss
          have h2 : (specTry ((specRateOrder r).map fun x => (f, x))
              env.inits).2 ≠ [] := by
            cases hc1 : (specRateOrder r).map fun x => (f, x) with
            | nil => exact absurd hc1 hne1
            | cons cc ccs =>
              exact specTry_ne_nil cc ccs env.inits
          have hmem := getLastD_mem _ h2 ((f : Bool), (0 : Nat))
          have hfst := mem_map_fst (specTry_subset _ env.inits _ hmem)
          rw [Option.some_inj]
          exact Prod.ext hfst.symm rfl
        · rw [List.nil_append, map_proj_icall]
      · rw [if_neg hok]
        have hsne : s ≠ InitResp.ok := by
          intro hse
          rw [hse, (hOk InitResp.ok).mpr rfl] at hstep
          injection hstep with hh
          exact hok hh.symm
        constructor
        · rw [specStop_fail_try _ env.inits s hss hsne]
        · rw [List.nil_append, map_proj_icall]
  | none =>
    cases hro : specRateOrder r with
    | nil =>
      rw [specRateOrder_eq] at hro
      exact absurd hro (List.cons_ne_nil _ _)
    | cons r0 rest0 =>
      rw [hro] at hss
      obtain ⟨hB1, hB2, hB3, hB4⟩ := specStop_none_append
        ((r0 :: rest0).map fun x => (f, x))
        ((r0 :: rest0).map fun x => (!f, x)) env.inits hss
      have hNlen : ((specTry ((r0 :: rest0).map fun x => (f, x))
          env.inits).2).length
          = ((r0 :: rest0).map fun x => (f, x)).length := by rw [hB3]
      rw [← hNlen] at hB1
      dsimp only
      have hresp2 : ∀ x ∈ env.inits.drop
          ((specTry ((r0 :: rest0).map fun x => (f, x)) env.inits).2.length),
          P x := by
        intro x hx
        exact hresp x (List.drop_subset _ _ hx)
      rw [walk_master sh (!f) P stepOut B (hB (!f)) hUn (r0 :: rest0)
        .unsupported
        ⟨env.activates, env.periods, env.bufSizes,
          env.inits.drop
            ((specTry ((r0 :: rest0).map fun x => (f, x))
              env.inits).2.length)⟩
        ([] ++ (specTry ((r0 :: rest0).map fun x => (f, x)) env.inits).2.map
          (fun c => (⟨sh, c.1, c.2⟩ : ICall))) hresp2]
      dsimp only
      cases hss2 : specStop ((r0 :: rest0).map fun x => (!f, x))
          (env.inits.drop
            ((specTry ((r0 :: rest0).map fun x => (f, x))
              env.inits).2.length)) with
      | some s =>
        dsimp only
        cases hstep : stepOut s with
        | unsupp =>
          have hsu : s = InitResp.unsupported := (hUn s).mp hstep
          rw [hsu] at hss2
          exact absurd hss2 (specStop_ne_unsupp _ _)
        | fatal =>
          have hsne : s ≠ InitResp.ok := by
            intro hse
            rw [hse, (hOk InitResp.ok).mpr rfl] at hstep
            cases hstep
          dsimp only
          constructor
          · rw [hB1]
            dsimp only
            rw [specStop_fail_try _ _ s hss2 hsne]
          · rw [hB1]
            dsimp only
            rw [List.nil_append, List.map_append, map_proj_icall,
              map_proj_icall, hB3]
        | broke h1 =>
          dsimp only
          by_cases hok : h1 = InitResp.ok
          · subst hok
            have hs : s = InitResp.ok := (hOk s).mp hstep
            rw [hs] at hss2
            rw [if_pos rfl]
            constructor
            · rw [hB1]
              dsimp only
              rw [specStop_ok_try _ _ ((!f : Bool), (0 : Nat)) hss2]
              have hne2 : ((r0 :: rest0).map fun x => (!f, x)) ≠ [] :=
                specStop_some_ne_nil hss2
              have h2 : (specTry ((r0 :: rest0).map fun x => (!f, x))
                  (env.inits.drop
                    ((specTry ((r0 :: rest0).map fun x => (f, x))
                      env.inits).2.length))).2 ≠ [] := by
                cases hc2 : (r0 :: rest0).map fun x => (!f, x) with
                | nil => exact absurd hc2 hne2
                | cons cc ccs =>
                  exact specTry_ne_nil cc ccs _
              have hmem := getLastD_mem _ h2 ((!f : Bool), (0 : Nat))
              have hfst := mem_map_fst (specTry_subset _ _ _ hmem)
              rw [Option.some_inj]
              exact Prod.ext hfst.symm rfl
            · rw [hB1]
              dsimp only
              rw [List.nil_append, List.map_append, map_proj_icall,
                map_proj_icall, hB3]
          · rw [if_neg hok]
            have hsne : s ≠ InitResp.ok := by
              intro hse
              rw [hse, (hOk InitResp.ok).mpr rfl] at hstep
              injection hstep with hh
              exact hok hh.symm
            constructor
            · rw [hB1]
              dsimp only
              rw [specStop_fail_try _ _ s hss2 hsne]
            · rw [hB1]
              dsimp only
              rw [List.nil_append, List.map_append, map_proj_icall,
                map_proj_icall, hB3]
      | none =>
        dsimp only
        obtain ⟨_, _, hC3, hC4⟩ := specStop_none_append
          ((r0 :: rest0).map fun x => (!f, x)) [] _ hss2
        constructor
        · rw [if_neg (show ¬(InitResp.unsupported = InitResp.ok) by decide)]
          rw [hB1]
          dsimp only
          exact hC4.symm
        · rw [hB1]
          dsimp only
          rw [List.nil_append, List.map_append, map_proj_icall,
            map_proj_icall, hB3]

theorem stepOutSh_unsupp :
    ∀ s, stepOutSh s = BodyOut.unsupp ↔ s = InitResp.unsupported := by
  intro s; cases s <;> decide

theorem stepOutSh_ok :
    ∀ s, stepOutSh s = BodyOut.broke InitResp.ok ↔ s = InitResp.ok := by
  intro s; cases s <;> decide

theorem stepOutEx_unsupp :
    ∀ s, stepOutEx s = BodyOut.unsupp ↔ s = InitResp.unsupported := by
  intro s; cases s <;> decide

theorem stepOutEx_ok :
    ∀ s, stepOutEx s = BodyOut.broke InitResp.ok ↔ s = InitResp.ok := by
  intro s; cases s <;> decide

theorem init_client_sh_prologue (env : NegEnv) (flt : Bool) (rReq : Nat)
    (hact : env.activates.headD false = true) :
    wasapi_init_client_sh env flt rReq
      = clientLoop shBody
          ⟨env.activates.tail, env.periods, env.bufSizes, env.inits⟩
          flt rReq := by
  unfold wasapi_init_client_sh NegEnv.popActivate
  rw [hact, if_pos rfl]

theorem init_client_ex_prologue (env : NegEnv) (flt : Bool) (rReq : Nat)
    (hact : env.activates.headD false = true)
    (hper : env.periods.headD false = true) :
    wasapi_init_client_ex env flt rReq
      = clientLoop exBody
          ⟨env.activates.tail, env.periods.tail, env.bufSizes, env.inits⟩
          flt rReq := by
  unfold wasapi_init_client_ex NegEnv.popActivate NegEnv.popPeriod
  rw [hact, if_pos rfl]
  rw [hper, if_pos rfl]

/-- C2 (corrected): with a nonzero requested rate, a successful `Activate`
(and, for exclusive mode, a successful `GetDevicePeriod`), and an engine
that answers every `Initialize` with accept or unsupported-format, a mode
attempt (shared or exclusive) tries `(float, rate)` candidates in exactly
the order `(f, r)`, then `f` over 48000, 44100, 96000, 192000 with `r`
skipped, then the same with `!f`, stopping at the first accepted candidate
and returning it — the behaviour the spec describes, matching the
spec-side walker `specTry` over `specCandidates` both in result and in the
exact sequence of candidates submitted to the engine.  The rate-0 corner
the original sentence also covers is refuted separately. -/
theorem init_client_rate_order (f : Bool) (r : Nat) (hr : r ≠ 0)
    (env : NegEnv)
    (hact : env.activates.headD false = true)
    (hper : env.periods.headD false = true)
    (hresp : ∀ x ∈ env.inits,
      x = InitResp.ok ∨ x = InitResp.unsupported) :
    ((wasapi_init_client_sh env f r).1
        = (specTry (specCandidates f r) env.inits).1
      ∧ (wasapi_init_client_sh env f r).2.2.map (fun ic => (ic.flt, ic.rate))
        = (specTry (specCandidates f r) env.inits).2)
    ∧ ((wasapi_init_client_ex env f r).1
        = (specTry (specCandidates f r) env.inits).1
      ∧ (wasapi_init_client_ex env f r).2.2.map (fun ic => (ic.flt, ic.rate))
        = (specTry (specCandidates f r) env.inits).2) := by
  have hrespSh : ∀ x ∈ (⟨env.activates.tail, env.periods, env.bufSizes,
      env.inits⟩ : NegEnv).inits, x ≠ InitResp.alreadyInit := by
    intro x hx
    rcases hresp x hx with h | h <;> subst h <;> decide
  have hrespEx : ∀ x ∈ (⟨env.activates.tail, env.periods.tail, env.bufSizes,
      env.inits⟩ : NegEnv).inits,
      x ≠ InitResp.notAligned ∧ x ≠ InitResp.alreadyInit := by
    intro x hx
    rcases hresp x hx with h | h <;> subst h <;> exact ⟨by decide, by decide⟩
  obtain ⟨hs1, hs2⟩ := clientLoop_specTry true f
    (fun x => x ≠ InitResp.alreadyInit) stepOutSh shBody shBody_simple
    stepOutSh_unsupp stepOutSh_ok r hr
    ⟨env.activates.tail, env.periods, env.bufSizes, env.inits⟩ hrespSh
  obtain ⟨he1, he2⟩ := clientLoop_specTry false f
    (fun x => x ≠ InitResp.notAligned ∧ x ≠ InitResp.alreadyInit)
    stepOutEx exBody exBody_simple stepOutEx_unsupp stepOutEx_ok r hr
    ⟨env.activates.tail, env.periods.tail, env.bufSizes, env.inits⟩ hrespEx
  refine ⟨⟨?_, ?_⟩, ⟨?_, ?_⟩⟩
  · rw [init_client_sh_prologue env f r hact]
    exact hs1
  · rw [init_client_sh_prologue env f r hact]
    exact hs2
  · rw [init_client_ex_prologue env f r hact hper]
    exact he1
  · rw [init_client_ex_prologue env f r hact hper]
    exact he2

theorem init_client_rate_order_witness :
    (1 : Nat) ≠ 0
    ∧ (((wasapi_init_client_sh
          ⟨[true], [true], [], [InitResp.unsupported, InitResp.ok]⟩
          false 1).1
        = (specTry (specCandidates false 1)
            [InitResp.unsupported, InitResp.ok]).1
      ∧ (wasapi_init_client_sh
          ⟨[true], [true], [], [InitResp.unsupported, InitResp.ok]⟩
          false 1).2.2.map (fun ic => (ic.flt, ic.rate))
        = (specTry (specCandidates false 1)
            [InitResp.unsupported, InitResp.ok]).2)
    ∧ ((wasapi_init_client_ex
          ⟨[true], [true], [], [InitResp.unsupported, InitResp.ok]⟩
          false 1).1
        = (specTry (specCandidates false 1)
            [InitResp.unsupported, InitResp.ok]).1
      ∧ (wasapi_init_client_ex
          ⟨[true], [true], [], [InitResp.unsupported, InitResp.ok]⟩
          false 1).2.2.map (fun ic => (ic.flt, ic.rate))
        = (specTry (specCandidates false 1)
            [InitResp.unsupported, InitResp.ok]).2)) :=
  ⟨by decide,
   init_client_rate_order false 1 (by decide)
     ⟨[true], [true], [], [InitResp.unsupported, InitResp.ok]⟩
     (by decide) (by decide) (by decide)⟩

/-- C2 counterexample: with requested rate 0 the claim's order is not
followed.  The spec order at `(f, r) = (false, 0)` starts with `(false, 0)`
and the engine here accepts the first candidate it is asked, yet the
shared-mode attempt submits no candidate at all (`for (j = 0; rate != 0;
++j)` never iterates) and reports the never-tried `(true, 0)` as the
successful combination, because the stale HRESULT of the preceding
`Activate` call survives both empty loops. -/
theorem init_client_rate_order_cex :
    (wasapi_init_client_sh ⟨[true], [], [], [InitResp.ok]⟩ false 0).2.2 = []
    ∧ (specTry (specCandidates false 0) [InitResp.ok]).2 = [(false, 0)]
    ∧ (wasapi_init_client_sh ⟨[true], [], [], [InitResp.ok]⟩ false 0).1
        = some (true, 0)
    ∧ (specTry (specCandidates false 0) [InitResp.ok]).1
        = some (false, 0) := by
  refine ⟨rfl, by decide, rfl, by decide⟩

/-- C4: during an exclusive-mode attempt (nonzero requested rate,
successful `Activate` and `GetDevicePeriod`, every engine answer one of
accept / unsupported-format / device-in-use / exclusive-not-allowed), if
the first answer that is not unsupported-format is device-in-use or
exclusive-not-allowed, the attempt fails (`NULL` client) and the calls it
made are exactly the candidates up to and including the one that drew the
fatal answer — no later candidate is tried; unsupported-format answers are
the only ones that advanced the walk that far, as `specTry` records. -/
theorem init_client_ex_fatal (f : Bool) (r : Nat) (hr : r ≠ 0)
    (env : NegEnv)
    (hact : env.activates.headD false = true)
    (hper : env.periods.headD false = true)
    (hresp : ∀ x ∈ env.inits,
      x = InitResp.ok ∨ x = InitResp.unsupported ∨ x = InitResp.inUse
        ∨ x = InitResp.notAllowed)
    (s : InitResp)
    (hstop : specStop (specCandidates f r) env.inits = some s)
    (hfatal : s = InitResp.inUse ∨ s = InitResp.notAllowed) :
    (wasapi_init_client_ex env f r).1 = none
    ∧ (wasapi_init_client_ex env f r).2.2.map (fun ic => (ic.flt, ic.rate))
        = (specTry (specCandidates f r) env.inits).2 := by
  have hrespEx : ∀ x ∈ (⟨env.activates.tail, env.periods.tail, env.bufSizes,
      env.inits⟩ : NegEnv).inits,
      x ≠ InitResp.notAligned ∧ x ≠ InitResp.alreadyInit := by
    intro x hx
    rcases hresp x hx with h | h | h | h <;> subst h <;>
      exact ⟨by decide, by decide⟩
  obtain ⟨he1, he2⟩ := clientLoop_specTry false f
    (fun x => x ≠ InitResp.notAligned ∧ x ≠ InitResp.alreadyInit)
    stepOutEx exBody exBody_simple stepOutEx_unsupp stepOutEx_ok r hr
    ⟨env.activates.tail, env.periods.tail, env.bufSizes, env.inits⟩ hrespEx
  have hsne : s ≠ InitResp.ok := by
    rcases hfatal with h | h <;> subst h <;> decide
  have hnone := specStop_fail_try (specCandidates f r) env.inits s hstop hsne
  constructor
  · rw [init_client_ex_prologue env f r hact hper, he1]
    exact hnone
  · rw [init_client_ex_prologue env f r hact hper]
    exact he2

theorem init_client_ex_fatal_witness :
    specStop (specCandidates false 1) [InitResp.unsupported, InitResp.inUse]
        = some InitResp.inUse
    ∧ ((wasapi_init_client_ex
          ⟨[true], [true], [], [InitResp.unsupported, InitResp.inUse]⟩
          false 1).1 = none
      ∧ (wasapi_init_client_ex
          ⟨[true], [true], [], [InitResp.unsupported, InitResp.inUse]⟩
          false 1).2.2.map (fun ic => (ic.flt, ic.rate))
        = (specTry (specCandidates false 1)
            [InitResp.unsupported, InitResp.inUse]).2) :=
  ⟨by decide,
   init_client_ex_fatal false 1 (by decide)
     ⟨[true], [true], [], [InitResp.unsupported, InitResp.inUse]⟩
     (by decide) (by decide) (by decide)
     InitResp.inUse (by decide) (Or.inl rfl)⟩
